import Mathlib

/-!
Verification development for the telemetry-ingestion scripts of the
claude-code-monitoring-guide repository.

The Python sources are shallowly embedded:

* strings are `List Char`; Python text transforms become structural list scans;
* JSON values (results of `json.loads`) become the inductive type `Json`,
  with numbers as exact rationals (Python float rounding is not modelled;
  every number appearing in the claims is an integer, where the two agree);
* the SQLite database becomes the record `DB` of row lists; `INSERT` is list
  append and `INSERT OR IGNORE` on the unique `session_id` column is a
  conditional append; `commit` is modelled on a connection record `Conn`
  that separates committed from pending state;
* fallible code (`json.loads` inside `try`/`except`) returns `Option`.

Modelling restrictions, stated once here: attribute values that the scripts
read as strings (`session.id`, `user.id`, `model`, `name`) are modelled via
a lookup that falls back to the default on a non-string value, where CPython
would either crash with a `TypeError`/`AttributeError` (aborting the run) or
store a coerced value; `NaN`/`Infinity` literals and float formatting are
outside the model.  No claim exercises these corners.
-/

/-- Shorthand: the character list of a string literal. -/
def lc (s : String) : List Char := s.toList

/-- JSON values as produced by a strict parse (`json.loads`).  Objects keep
their key/value pairs in source order; lookups take the last binding, which
matches the way repeated keys overwrite each other in a Python dict.
A number `num m e` denotes the exact rational m·10^e; a number without
fraction or exponent parses with `e = 0` (a Python int). -/
inductive Json where
  | null : Json
  | bool : Bool → Json
  | num : Int → Int → Json
  | str : List Char → Json
  | arr : List Json → Json
  | obj : List (List Char × Json) → Json

/-- The rational value of the number `num m e`. -/
def numValQ (m e : Int) : ℚ := (m : ℚ) * (10 : ℚ) ^ e

/-- Last-binding lookup in an association list, matching Python dict
construction from a key/value sequence. -/
def lookupLast (kvs : List (List Char × Json)) (k : List Char) : Option Json :=
  kvs.foldl (fun acc p => if p.1 = k then some p.2 else acc) none

/-- Python `d.get(k)` for a JSON value: a lookup on objects, `none` otherwise. -/
def Json.get? : Json → List Char → Option Json
  | .obj kvs, k => lookupLast kvs k
  | _, _ => none

/-- Python `d.get(k, default)`. -/
def Json.getD (j : Json) (k : List Char) (d : Json) : Json :=
  (j.get? k).getD d

/-- Python `k in d` on a dict. -/
def Json.hasKey : Json → List Char → Bool
  | .obj kvs, k => kvs.any (fun p => p.1 == k)
  | _, _ => false

/-- Python `d.get(k, default)` where the caller uses the result as a string:
a present string value is returned, anything else yields the default (see the
modelling restrictions in the header). -/
def Json.getStrD (j : Json) (k : List Char) (d : List Char) : List Char :=
  match j.get? k with
  | some (.str s) => s
  | _ => d

/-- Python substring containment `pat in s`. -/
def isSubstr (pat : List Char) : List Char → Bool
  | [] => pat.isEmpty
  | c :: rest => pat.isPrefixOf (c :: rest) || isSubstr pat rest

/-- Python truthiness of a JSON value (`if parsed:`). -/
def jsonTruthy : Json → Bool
  | .null => false
  | .bool b => b
  | .num m _ => if m = 0 then false else true
  | .str s => !s.isEmpty
  | .arr l => !l.isEmpty
  | .obj l => !l.isEmpty

/-! ### The lenient text transforms of `parse_metric_block`
(`scripts/parse_otel_metrics.py`, lines 96-109). -/

/-- Step (a): `block.replace("'", '"')`. -/
def pySquashQuotes (s : List Char) : List Char :=
  s.map (fun c => if c = '\x27' then '"' else c)

/-- Word characters of the regex class `\w` (ASCII fragment). -/
def isWordChar (c : Char) : Bool :=
  ('a' ≤ c && c ≤ 'z') || ('A' ≤ c && c ≤ 'Z') || ('0' ≤ c && c ≤ '9') || c = '_'

/-- Fuelled worker for step (b), the regex `re.sub(r'(\w+):', r'"\1":', s)`:
a maximal word-character run immediately followed by a colon is wrapped in
double quotes; scanning is left to right and non-overlapping, exactly the
`re.sub` semantics (a run not followed by a colon can never match at any of
its interior positions either, so the whole run is emitted unchanged). -/
def pyQuoteKeysF : Nat → List Char → List Char
  | 0, s => s
  | fuel + 1, s =>
    match s with
    | [] => []
    | c :: rest =>
      if isWordChar c then
        let run := (c :: rest).takeWhile isWordChar
        let after := (c :: rest).dropWhile isWordChar
        match after with
        | ':' :: rest2 => '"' :: run ++ '"' :: ':' :: pyQuoteKeysF fuel rest2
        | _ => run ++ pyQuoteKeysF fuel after
      else c :: pyQuoteKeysF fuel rest

/-- Step (b) with enough fuel for the whole input. -/
def pyQuoteKeys (s : List Char) : List Char :=
  pyQuoteKeysF (s.length + 1) s

/-- Whitespace characters of the regex class `\s` (ASCII fragment). -/
def isWsRe (c : Char) : Bool :=
  c = ' ' || c = '\t' || c = '\n' || c = '\r' || c = '\x0b' || c = '\x0c'

/-- Fuelled worker for step (c), the regex `re.sub(r',(\s*[}\x5d])', r'\1', s)`:
a comma followed by whitespace and a closing brace or bracket is dropped,
keeping the whitespace and the closer. -/
def pyStripTrailingCommasF : Nat → List Char → List Char
  | 0, s => s
  | fuel + 1, s =>
    match s with
    | [] => []
    | c :: rest =>
      if c = ',' then
        let ws := rest.takeWhile isWsRe
        let after := rest.dropWhile isWsRe
        match after with
        | d :: rest2 =>
          if d = '}' ∨ d = ']' then ws ++ d :: pyStripTrailingCommasF fuel rest2
          else c :: pyStripTrailingCommasF fuel rest
        | [] => c :: pyStripTrailingCommasF fuel rest
      else c :: pyStripTrailingCommasF fuel rest

/-- Step (c) with enough fuel for the whole input. -/
def pyStripTrailingCommas (s : List Char) : List Char :=
  pyStripTrailingCommasF (s.length + 1) s

/-! ### A strict JSON parser modelling `json.loads`. -/

/-- JSON insignificant whitespace. -/
def isWsJson (c : Char) : Bool :=
  c = ' ' || c = '\t' || c = '\n' || c = '\r'

/-- Skip JSON whitespace. -/
def skipWsJson : List Char → List Char
  | [] => []
  | c :: rest => if isWsJson c then skipWsJson rest else c :: rest

/-- Decimal digit test. -/
def isDigitCh (c : Char) : Bool := '0' ≤ c && c ≤ '9'

/-- Value of a digit run. -/
def digitsToNat (ds : List Char) : Nat :=
  ds.foldl (fun a c => a * 10 + (c.toNat - 48)) 0

/-- Hexadecimal digit value, if any. -/
def hexVal (c : Char) : Option Nat :=
  if '0' ≤ c && c ≤ '9' then some (c.toNat - 48)
  else if 'a' ≤ c && c ≤ 'f' then some (c.toNat - 87)
  else if 'A' ≤ c && c ≤ 'F' then some (c.toNat - 55)
  else none

/-- Fuelled body of a JSON string literal, after the opening quote: the
strict escapes of `json.loads` (including `\uXXXX`, without surrogate-pair
combination) and a hard error on unescaped control characters. -/
def jparseStrBody : Nat → List Char → Option (List Char × List Char)
  | 0, _ => none
  | fuel + 1, s =>
    match s with
    | [] => none
    | '"' :: rest => some ([], rest)
    | '\\' :: e :: rest =>
      let simpleEsc : Option Char :=
        if e = '"' then some '"'
        else if e = '\\' then some '\\'
        else if e = '/' then some '/'
        else if e = 'b' then some '\x08'
        else if e = 'f' then some '\x0c'
        else if e = 'n' then some '\n'
        else if e = 'r' then some '\r'
        else if e = 't' then some '\t'
        else none
      match simpleEsc with
      | some c =>
        match jparseStrBody fuel rest with
        | some (body, rem) => some (c :: body, rem)
        | none => none
      | none =>
        if e = 'u' then
          match rest with
          | h1 :: h2 :: h3 :: h4 :: rest2 =>
            match hexVal h1, hexVal h2, hexVal h3, hexVal h4 with
            | some a, some b, some c, some d =>
              let code := ((a * 16 + b) * 16 + c) * 16 + d
              let ch := Char.ofNat code
              match jparseStrBody fuel rest2 with
              | some (body, rem) => some (ch :: body, rem)
              | none => none
            | _, _, _, _ => none
          | _ => none
        else none
    | c :: rest =>
      if c.toNat < 32 then none
      else
        match jparseStrBody fuel rest with
        | some (body, rem) => some (c :: body, rem)
        | none => none

/-- A JSON string literal including the opening quote. -/
def jparseString (fuel : Nat) : List Char → Option (List Char × List Char)
  | '"' :: rest => jparseStrBody fuel rest
  | _ => none

/-- A JSON number, `-?(0|[1-9][0-9]*)(\.[0-9]+)?([eE][+-]?[0-9]+)?`, kept
as mantissa and decimal exponent.  Returns the value and the remaining
input. -/
def jparseNumber (s : List Char) : Option ((Int × Int) × List Char) :=
  let (neg, s1) : Bool × List Char :=
    match s with
    | '-' :: rest => (true, rest)
    | _ => (false, s)
  let intDigits := s1.takeWhile isDigitCh
  let s2 := s1.dropWhile isDigitCh
  if intDigits.isEmpty then none
  else if 1 < intDigits.length ∧ intDigits.headD '0' = '0' then none
  else
    let (fracOk, fracDigits, s3) : Bool × List Char × List Char :=
      match s2 with
      | '.' :: rest =>
        let fd := rest.takeWhile isDigitCh
        if fd.isEmpty then (false, [], s2)
        else (true, fd, rest.dropWhile isDigitCh)
      | _ => (true, [], s2)
    if !fracOk then none
    else
      let (expOk, expVal, s4) : Bool × Int × List Char :=
        match s3 with
        | e :: rest =>
          if e = 'e' ∨ e = 'E' then
            let (esign, rest2) : Bool × List Char :=
              match rest with
              | '+' :: r => (false, r)
              | '-' :: r => (true, r)
              | _ => (false, rest)
            let ed := rest2.takeWhile isDigitCh
            if ed.isEmpty then (false, 0, s3)
            else
              let mag : Int := (digitsToNat ed : Int)
              (true, if esign then -mag else mag, rest2.dropWhile isDigitCh)
          else (true, 0, s3)
        | [] => (true, 0, s3)
      if !expOk then none
      else
        let mantNat : Nat := digitsToNat (intDigits ++ fracDigits)
        let mant : Int := if neg then -(mantNat : Int) else (mantNat : Int)
        some ((mant, expVal - (fracDigits.length : Int)), s4)

mutual

/-- Fuelled JSON value parser (leading whitespace allowed). -/
def jparseValue : Nat → List Char → Option (Json × List Char)
  | 0, _ => none
  | fuel + 1, s =>
    match skipWsJson s with
    | [] => none
    | c :: rest =>
      if c = '{' then
        match skipWsJson rest with
        | '}' :: rest2 => some (.obj [], rest2)
        | rest2 => jparseMembers fuel rest2 []
      else if c = '[' then
        match skipWsJson rest with
        | ']' :: rest2 => some (.arr [], rest2)
        | rest2 => jparseItems fuel rest2 []
      else if c = '"' then
        match jparseStrBody (fuel + 1) rest with
        | some (body, rem) => some (.str body, rem)
        | none => none
      else if (lc "true").isPrefixOf (c :: rest) then
        some (.bool true, (c :: rest).drop 4)
      else if (lc "false").isPrefixOf (c :: rest) then
        some (.bool false, (c :: rest).drop 5)
      else if (lc "null").isPrefixOf (c :: rest) then
        some (.null, (c :: rest).drop 4)
      else
        match jparseNumber (c :: rest) with
        | some ((m, e), rem) => some (.num m e, rem)
        | none => none

/-- Fuelled object members, positioned at the start of a key string. -/
def jparseMembers : Nat → List Char → List (List Char × Json) →
    Option (Json × List Char)
  | 0, _, _ => none
  | fuel + 1, s, acc =>
    match jparseString (fuel + 1) s with
    | none => none
    | some (k, rest) =>
      match skipWsJson rest with
      | ':' :: rest2 =>
        match jparseValue fuel rest2 with
        | none => none
        | some (v, rest3) =>
          match skipWsJson rest3 with
          | ',' :: rest4 => jparseMembers fuel (skipWsJson rest4) (acc ++ [(k, v)])
          | '}' :: rest4 => some (.obj (acc ++ [(k, v)]), rest4)
          | _ => none
      | _ => none

/-- Fuelled array items, positioned at the start of a value. -/
def jparseItems : Nat → List Char → List Json → Option (Json × List Char)
  | 0, _, _ => none
  | fuel + 1, s, acc =>
    match jparseValue fuel s with
    | none => none
    | some (v, rest) =>
      match skipWsJson rest with
      | ',' :: rest2 => jparseItems fuel rest2 (acc ++ [v])
      | ']' :: rest2 => some (.arr (acc ++ [v]), rest2)
      | _ => none

end

/-- Python `json.loads`: a single strict JSON value with only whitespace
around it. -/
def jsonLoads (s : List Char) : Option Json :=
  match jparseValue (2 * s.length + 4) s with
  | some (v, rest) => if (skipWsJson rest).isEmpty then some v else none
  | none => none

/-- `parse_metric_block` (`parse_otel_metrics.py`, lines 96-109): the three
lenient transforms in order, then a strict parse; a parse failure is the
`none` result (the `except json.JSONDecodeError: return None` branch), never
an exception that aborts the caller. -/
def parse_metric_block (block : List Char) : Option Json :=
  jsonLoads (pyStripTrailingCommas (pyQuoteKeys (pySquashQuotes block)))

/-! ### The block extractor `extract_metrics_from_log`
(`parse_otel_metrics.py`, lines 112-142). -/

/-- Does the text start with the marker of the split pattern
`(?=\x7b\s*descriptor:)`: an opening brace, optional whitespace, then the
literal `descriptor:`?  Worker for the part after the brace. -/
def afterBraceMarker : List Char → Bool
  | [] => false
  | c :: rest =>
    if isWsRe c then afterBraceMarker rest
    else (lc "descriptor:").isPrefixOf (c :: rest)

/-- Marker test at the head of the remaining text. -/
def isMarkerAt : List Char → Bool
  | [] => false
  | c :: rest => c == '{' && afterBraceMarker rest

/-- The zero-width split `re.split(r'(?=\x7b\s*descriptor:)', log)`: the text
is cut at every position where the marker matches, and a match at position
zero contributes an empty first segment, as in Python 3.7+. -/
def splitDesc (acc : List Char) : List Char → List (List Char)
  | [] => [acc.reverse]
  | c :: rest =>
    if isMarkerAt (c :: rest) then acc.reverse :: splitDesc [c] rest
    else splitDesc (c :: acc) rest

/-- The brace-depth scan of lines 127-135: from the first brace, walk the
characters keeping a running depth; the first closing brace that brings the
depth to zero ends the span (`end = i + 1`).  Returns the span length, or
`none` when the depth never returns to zero (in the source `end` then stays
equal to `start` and the span is empty). -/
def findSpanLen : List Char → Int → Nat → Option Nat
  | [], _, _ => none
  | c :: rest, depth, i =>
    let d := if c = '{' then depth + 1 else if c = '}' then depth - 1 else depth
    if c = '}' ∧ d = 0 then some (i + 1) else findSpanLen rest d (i + 1)

/-- Per-segment candidate span of lines 120-137: segments without the
substring `descriptor:` or without any brace yield nothing (`continue`);
otherwise the span runs from the first brace to the depth-matching close,
and is empty when no close is found. -/
def blockToSpan (block : List Char) : Option (List Char) :=
  if isSubstr (lc "descriptor:") block then
    match block.findIdx? (fun c => c == '{') with
    | none => none
    | some st =>
      let tail := block.drop st
      match findSpanLen tail 0 0 with
      | some len => some (tail.take len)
      | none => some []
  else none

/-- The candidate spans the extractor scans out of a log text. -/
def extractSpans (log : List Char) : List (List Char) :=
  (splitDesc [] log).filterMap blockToSpan

/-- Lenient parse of a span followed by the `if parsed:` truthiness filter of
line 139 (so the empty object is dropped too). -/
def parsedTruthy (span : List Char) : Option Json :=
  match parse_metric_block span with
  | some j => if jsonTruthy j then some j else none
  | none => none

/-- `extract_metrics_from_log` (lines 112-142): split at markers, take each
descriptor-bearing segment's span, keep the blocks that parse to truthy
values. -/
def extract_metrics_from_log (log : List Char) : List Json :=
  (splitDesc [] log).filterMap (fun block => (blockToSpan block).bind parsedTruthy)

/-! ### The SQLite store (`create_database`, lines 20-93) as row lists. -/

/-- A row of the `sessions` table; `ended_at` is never inserted (NULL). -/
structure SessionRow where
  session_id : List Char
  user_id : List Char
  model : List Char
  started_at : List Char
  ended_at : Option (List Char)

/-- A row of `token_usage`.  `token_type` and `value` keep the raw inserted
value (SQLite stores whatever object was bound). -/
structure TokenRow where
  session_id : List Char
  timestamp : List Char
  model : List Char
  token_type : Json
  value : Json

/-- A row of `cost_usage`. -/
structure CostRow where
  session_id : List Char
  timestamp : List Char
  model : List Char
  value : Json

/-- A row of `active_time`. -/
structure ActiveRow where
  session_id : List Char
  timestamp : List Char
  value : Json

/-- A row of `code_activity`. -/
structure CodeActivityRow where
  session_id : List Char
  timestamp : List Char
  activity_type : List Char
  value : Json

/-- A row of `raw_metrics`. -/
structure RawMetricRow where
  timestamp : List Char
  metric_name : List Char
  raw_json : List Char

/-- A row of `session_messages` (`combine_sources.py`, lines 19-39).  The
`timestamp` column exists in the schema but the INSERT of lines 118-128
never names it, so it records what the insert put there: `none` = NULL. -/
structure MsgRow where
  session_id : List Char
  timestamp : Option (List Char)
  role : List Char
  content_preview : List Char
  tool_use : Option (List Char)
  usage_input_tokens : Json
  usage_output_tokens : Json
  usage_cache_read : Json
  usage_cache_creation : Json

/-- The whole store. -/
structure DB where
  sessions : List SessionRow
  token_usage : List TokenRow
  cost_usage : List CostRow
  active_time : List ActiveRow
  code_activity : List CodeActivityRow
  raw_metrics : List RawMetricRow
  session_messages : List MsgRow

/-- The empty store, right after `create_database` on a fresh file. -/
def emptyDB : DB := ⟨[], [], [], [], [], [], []⟩

/-! ### `store_metric` (`parse_otel_metrics.py`, lines 145-203). -/

/-- Serialize a JSON value the way `json.dumps` prints it (default
separators; object pairs in stored order).  Fuelled against the nesting
depth; non-integer rationals are printed as a fraction, a deliberate
simplification of float formatting. -/
def jsonDumpsF : Nat → Json → List Char
  | 0, _ => []
  | _, .null => lc "null"
  | _, .bool b => if b then lc "true" else lc "false"
  | _, .num m e =>
    if e = 0 then lc (toString m)
    else lc (toString m) ++ 'e' :: lc (toString e)
  | _, .str s => '"' :: s ++ ['"']
  | fuel + 1, .arr l =>
    '[' :: ((l.map (jsonDumpsF fuel)).intersperse (lc ", ")).flatten ++ [']']
  | fuel + 1, .obj kvs =>
    '{' :: ((kvs.map
        (fun p => '"' :: p.1 ++ '"' :: ':' :: ' ' :: jsonDumpsF fuel p.2)).intersperse
          (lc ", ")).flatten ++ ['}']

/-- `json.dumps` with fuel beyond any realistic nesting. -/
def jsonDumps (j : Json) : List Char := jsonDumpsF 1000 j

/-- The attribute resolution of lines 165-166:
`attrs.get(k1, attrs.get(k2, 'unknown'))` (string values; see header). -/
def resolveStr2 (attrs : Json) (k1 k2 : List Char) : List Char :=
  match attrs.get? k1 with
  | some (.str s) => s
  | _ =>
    match attrs.get? k2 with
    | some (.str s) => s
    | _ => lc "unknown"

/-- `attrs.get('model', 'unknown')` (line 167). -/
def resolveStr1 (attrs : Json) (k : List Char) : List Char :=
  match attrs.get? k with
  | some (.str s) => s
  | _ => lc "unknown"

/-- `INSERT OR IGNORE INTO sessions` keyed by the UNIQUE `session_id`
column (lines 171-174): append only when the id is absent. -/
def upsertSession (rows : List SessionRow) (r : SessionRow) : List SessionRow :=
  if rows.any (fun q => q.session_id == r.session_id) then rows else rows ++ [r]

/-- Lowercasing for the `metric_name.lower()` keyword tests. -/
def lowerStr (s : List Char) : List Char := s.map Char.toLower

/-- The keyword list of line 196. -/
def classifyKeywords : List (List Char) :=
  [lc "commit", lc "pull_request", lc "lines_of_code"]

/-- Python `name.split('.')`, as a character-level split. -/
def splitDotAll : List Char → List (List Char)
  | [] => [[]]
  | c :: rest =>
    match splitDotAll rest with
    | h :: t => if c = '.' then [] :: h :: t else (c :: h) :: t
    | [] => [[]]

/-- Line 197: `metric_name.split('.')[-1] if '.' in metric_name else
metric_name`. -/
def pySplitDotLast (name : List Char) : List Char :=
  if name.contains '.' then (splitDotAll name).getLastD [] else name

/-- `dp.get('attributes', {})` (line 164). -/
def dpAttrs (dp : Json) : Json := dp.getD (lc "attributes") (Json.obj [])

/-- Resolved session id of a data point (line 165). -/
def dpSession (dp : Json) : List Char :=
  resolveStr2 (dpAttrs dp) (lc "session.id") (lc "session_id")

/-- Resolved user id of a data point (line 166). -/
def dpUser (dp : Json) : List Char :=
  resolveStr2 (dpAttrs dp) (lc "user.id") (lc "user_id")

/-- Resolved model of a data point (line 167). -/
def dpModel (dp : Json) : List Char := resolveStr1 (dpAttrs dp) (lc "model")

/-- `dp.get('value', 0)` (line 168). -/
def dpValue (dp : Json) : Json := dp.getD (lc "value") (Json.num 0 0)

/-- `attrs.get('type', 'unknown')` (line 178). -/
def dpTokenType (dp : Json) : Json :=
  (dpAttrs dp).getD (lc "type") (Json.str (lc "unknown"))

/-- Per-data-point body of the loop at lines 163-201: resolve the session,
user, model and value with their documented defaults, upsert the session,
then run the `if`/`elif` keyword chain that appends to exactly one usage
table (or none). -/
def storeDataPoint (db : DB) (name : List Char) (dp : Json) (ts : List Char) : DB :=
  let db := { db with
    sessions := upsertSession db.sessions ⟨dpSession dp, dpUser dp, dpModel dp, ts, none⟩ }
  let low := lowerStr name
  if isSubstr (lc "token") low then
    { db with token_usage :=
        db.token_usage ++ [⟨dpSession dp, ts, dpModel dp, dpTokenType dp, dpValue dp⟩] }
  else if isSubstr (lc "cost") low then
    { db with cost_usage := db.cost_usage ++ [⟨dpSession dp, ts, dpModel dp, dpValue dp⟩] }
  else if isSubstr (lc "active_time") low then
    { db with active_time := db.active_time ++ [⟨dpSession dp, ts, dpValue dp⟩] }
  else if classifyKeywords.any (fun k => isSubstr k low) then
    { db with code_activity :=
        db.code_activity ++ [⟨dpSession dp, ts, pySplitDotLast name, dpValue dp⟩] }
  else db

/-- The guard of lines 147-148: `if not metric or 'descriptor' not in
metric: return` (an empty dict is falsy and also returns early). -/
def metricStorable (metric : Json) : Bool :=
  match metric with
  | .obj kvs => !kvs.isEmpty && kvs.any (fun p => p.1 == lc "descriptor")
  | _ => false

/-- `descriptor.get('name', '')` through `metric.get('descriptor', {})`
(lines 153-154). -/
def storedMetricName (metric : Json) : List Char :=
  (metric.getD (lc "descriptor") (Json.obj [])).getStrD (lc "name") []

/-- `metric.get('dataPoints', [])` (line 155). -/
def metricDataPoints (metric : Json) : List Json :=
  match metric.getD (lc "dataPoints") (Json.arr []) with
  | .arr l => l
  | _ => []

/-- `store_metric` without the final `conn.commit()`: archive the raw
metric, then process each data point.  The `timestamp` argument stands for
`timestamp or datetime.now().isoformat()` (line 151), always a nonempty ISO
string in the real runs. -/
def store_metric (db : DB) (metric : Json) (ts : List Char) : DB :=
  if metricStorable metric then
    let db1 := { db with raw_metrics :=
        db.raw_metrics ++ [⟨ts, storedMetricName metric, jsonDumps metric⟩] }
    (metricDataPoints metric).foldl
      (fun d dp => storeDataPoint d (storedMetricName metric) dp ts) db1
  else db

/-! ### The connection with commit tracking, for the batching claims. -/

/-- A connection: the rows visible to other readers (`committed`), the
pending state (`current`), and how many commits have run. -/
structure Conn where
  committed : DB
  current : DB
  commits : Nat

/-- A fresh connection over an empty store. -/
def freshConn : Conn := ⟨emptyDB, emptyDB, 0⟩

/-- `conn.commit()`. -/
def commitConn (c : Conn) : Conn :=
  { c with committed := c.current, commits := c.commits + 1 }

/-- The insert phase of `store_metric` on a connection: all inserts land in
the pending state only. -/
def storeMetricInserts (c : Conn) (metric : Json) (ts : List Char) : Conn :=
  { c with current := store_metric c.current metric ts }

/-- `store_metric` on a connection: for a storable metric, the inserts are
followed by the `conn.commit()` of line 203; the early return of line 148
commits nothing. -/
def store_metric_conn (c : Conn) (metric : Json) (ts : List Char) : Conn :=
  if metricStorable metric then commitConn (storeMetricInserts c metric ts) else c

/-- The ingestion loop of `parse_log_file` (lines 206-220), from the point
where the connection exists: extract the metric blocks and store each one.
The single `ts` argument stands for the per-call `datetime.now()`. -/
def parse_log_file (c : Conn) (log : List Char) (ts : List Char) : Conn :=
  (extract_metrics_from_log log).foldl (fun c m => store_metric_conn c m ts) c

/-! ### The transcript merger (`combine_sources.py`). -/

/-- Python `line.strip()` is truthy: the line holds a non-whitespace
character. -/
def lineNonBlank (line : List Char) : Bool :=
  line.any (fun c => !isWsRe c)

/-- `parse_session_jsonl` (lines 42-52): parse each non-blank line, silently
skipping lines that fail the strict parse (`except ...: continue`). -/
def parse_session_jsonl (lines : List (List Char)) : List Json :=
  lines.filterMap (fun line =>
    if lineNonBlank line then jsonLoads line else none)

/-- `extract_usage_from_entry` (lines 64-72): the four counters out of the
optional `usage` sub-object, each defaulting to `0` when absent. -/
def extract_usage_from_entry (entry : Json) : Json × Json × Json × Json :=
  let usage := entry.getD (lc "usage") (Json.obj [])
  (usage.getD (lc "input_tokens") (Json.num 0 0),
   usage.getD (lc "output_tokens") (Json.num 0 0),
   usage.getD (lc "cache_read_input_tokens") (Json.num 0 0),
   usage.getD (lc "cache_creation_input_tokens") (Json.num 0 0))

/-- Python `str(...)` of a JSON value, as needed for `str(content[0])` at
line 101/103: the repr-style rendering of a parsed JSON value (dict with
single-quoted keys, `True`/`False`/`None`).  Fuelled against nesting. -/
def pyStrF : Nat → Json → List Char
  | 0, _ => []
  | _, .null => lc "None"
  | _, .bool b => if b then lc "True" else lc "False"
  | _, .num m e =>
    if e = 0 then lc (toString m)
    else lc (toString m) ++ 'e' :: lc (toString e)
  | _, .str s => '\x27' :: s ++ ['\x27']
  | fuel + 1, .arr l =>
    '[' :: ((l.map (pyStrF fuel)).intersperse (lc ", ")).flatten ++ [']']
  | fuel + 1, .obj kvs =>
    '{' :: ((kvs.map
        (fun p => '\x27' :: p.1 ++ '\x27' :: ':' :: ' ' :: pyStrF fuel p.2)).intersperse
          (lc ", ")).flatten ++ ['}']

/-- `str(...)` with fuel beyond any realistic nesting. -/
def pyStr (j : Json) : List Char := pyStrF 1000 j

/-- The content preview of lines 96-105: take `entry.get('content', '')`;
when it is a list, replace it by the text field of its first element (a
dict), or the string form of that element, or the empty string for an empty
list; finally `content[:200] if content else ''`. -/
def previewOf (entry : Json) : List Char :=
  match entry.getD (lc "content") (Json.str []) with
  | .str s => s.take 200
  | .arr [] => []
  | .arr (h :: _) =>
    match h with
    | .obj _ =>
      (match h.get? (lc "text") with
       | some (.str s) => s.take 200
       | some v => (pyStr v).take 200
       | none => (pyStr h).take 200)
    | _ => (pyStr h).take 200
  | _ => []

/-- The tool scan of lines 107-113: when the raw `content` is a list, the
first dict element whose `type` is `tool_use` supplies the tool name
(default `unknown_tool`); otherwise the tool stays `None` (NULL). -/
def toolScan : List Json → Option (List Char)
  | [] => none
  | item :: rest =>
    match item with
    | .obj kvs =>
      match (Json.obj kvs).get? (lc "type") with
      | some (.str t) =>
        if t = lc "tool_use" then
          some (match (Json.obj kvs).get? (lc "name") with
                | some (.str n) => n
                | some _ => lc "unknown_tool"
                | none => lc "unknown_tool")
        else toolScan rest
      | _ => toolScan rest
    | _ => toolScan rest

/-- Tool name for the whole entry. -/
def toolOf (entry : Json) : Option (List Char) :=
  match entry.get? (lc "content") with
  | some (.arr items) => toolScan items
  | _ => none

/-- One `session_messages` row from a parsed entry (`merge_data` loop body,
lines 94-129).  The INSERT names no timestamp column, so the row carries
NULL there. -/
def entryToRow (sid : List Char) (entry : Json) : MsgRow :=
  let u := extract_usage_from_entry entry
  { session_id := sid
    timestamp := none
    role := entry.getStrD (lc "role") (lc "unknown")
    content_preview := previewOf entry
    tool_use := toolOf entry
    usage_input_tokens := u.1
    usage_output_tokens := u.2.1
    usage_cache_read := u.2.2.1
    usage_cache_creation := u.2.2.2 }

/-- The per-file portion of `merge_data` (lines 90-129): one INSERT per
parsed entry, session id taken from the file stem. -/
def merge_data (db : DB) (sid : List Char) (entries : List Json) : DB :=
  entries.foldl
    (fun d e => { d with session_messages := d.session_messages ++ [entryToRow sid e] }) db

/-! ### The cache-efficiency computation
(`generate_local_report.py`, lines 88-114). -/

/-- The SQL aggregate `SUM(CASE WHEN token_type = tt THEN value ELSE 0 END)`
over `token_usage`, with `row or 0` collapsing the NULL of an empty table
to `0`.  Non-numeric stored values contribute `0` (the claims restrict to
integer values). -/
def tokenTypeSum (rows : List TokenRow) (tt : List Char) : ℚ :=
  rows.foldl
    (fun a r =>
      a + (match r.token_type, r.value with
           | .str s, .num m e => if s = tt then numValQ m e else 0
           | _, _ => 0)) 0

/-- The record `calculate_cache_metrics` returns. -/
structure CacheMetrics where
  cache_read_tokens : ℚ
  cache_creation_tokens : ℚ
  input_tokens : ℚ
  cache_hit_ratio : ℚ
  cache_efficiency : ℚ
  cache_read_creation_ratio : ℚ
  estimated_savings : ℚ

/-- `calculate_cache_metrics` (lines 88-114), over the `token_usage` rows:
the three sums, then the guarded ratios (`0.000003 * 0.9` exactly). -/
def calculate_cache_metrics (rows : List TokenRow) : CacheMetrics :=
  let cache_read := tokenTypeSum rows (lc "cacheRead")
  let cache_creation := tokenTypeSum rows (lc "cacheCreation")
  let input_tokens := tokenTypeSum rows (lc "input")
  { cache_read_tokens := cache_read
    cache_creation_tokens := cache_creation
    input_tokens := input_tokens
    cache_hit_ratio :=
      if cache_read + cache_creation > 0 then cache_read / (cache_read + cache_creation) else 0
    cache_efficiency :=
      if cache_read + input_tokens > 0 then cache_read / (cache_read + input_tokens) else 0
    cache_read_creation_ratio :=
      if cache_creation > 0 then cache_read / cache_creation else 0
    estimated_savings := cache_read * (3 / 1000000) * (9 / 10) }

/-! ### Spec-side notions, used to state the claims independently of the
embedded code. -/

/-- Spec side of C4: the substring of `name` after its last dot, or all of
`name` when it has none. -/
def afterLastDot : List Char → List Char
  | [] => []
  | c :: rest =>
    if c = '.' ∨ rest.contains '.' then afterLastDot rest else c :: rest

/-- No marker match at any nonempty suffix of the text. -/
def noMarkerAll : List Char → Bool
  | [] => true
  | c :: rest => !isMarkerAt (c :: rest) && noMarkerAll rest

/-- Depth walk for a balanced block: starting below the opening brace at
depth `d > 0`, the depth stays positive until the final character brings it
to zero. -/
def balCheck : List Char → Int → Bool
  | [], _ => false
  | c :: rest, d =>
    let d2 := if c = '{' then d + 1 else if c = '}' then d - 1 else d
    if d2 = 0 then rest.isEmpty else balCheck rest d2

/-- Spec side of C2: a balanced-brace block, its opening brace matched
exactly by its final character. -/
def isStrictBalanced (b : List Char) : Bool :=
  match b with
  | [] => false
  | c :: rest => c == '{' && balCheck rest 1

/-- Depth walk that never returns to zero. -/
def noCloseCheck : List Char → Int → Bool
  | [], _ => true
  | c :: rest, d =>
    let d2 := if c = '{' then d + 1 else if c = '}' then d - 1 else d
    if d2 = 0 then false else noCloseCheck rest d2

/-- Spec side of C2: a brace-opened text whose opening brace is never
balanced before the end of the text. -/
def neverCloses (b : List Char) : Bool :=
  match b with
  | [] => false
  | c :: rest => c == '{' && noCloseCheck rest 1

/-- Spec side of C9: a non-negative integer value. -/
def isNatNumJson : Json → Bool
  | .num m e => decide (0 ≤ m) && decide (0 ≤ e)
  | _ => false

/-- Spec side of C7: a content element that invokes a tool. -/
def isToolUseItem (j : Json) : Bool :=
  match j.get? (lc "type") with
  | some (.str t) => t = lc "tool_use"
  | _ => false

/-- Spec side of C7: the invoked tool name of an element, default
`unknown_tool`. -/
def toolNameOf (j : Json) : List Char :=
  match j.get? (lc "name") with
  | some (.str n) => n
  | some _ => lc "unknown_tool"
  | none => lc "unknown_tool"

/-! ### Concrete fixtures for the claims. -/

/-- A log consisting of one `claude_code.token.usage` metric block whose
single data point carries `type: output`, `session.id: s1` and value 42. -/
def logC1 : List Char :=
  lc "\x7b descriptor: \x7b name: \x27claude_code.token.usage\x27 \x7d, dataPoints: [ \x7b attributes: \x7b type: \x27output\x27, \x27session.id\x27: \x27s1\x27 \x7d, value: 42 \x7d ] \x7d"

/-- The parsed form of the block in `logC1`. -/
def metricC1 : Json :=
  Json.obj
    [(lc "descriptor", .obj [(lc "name", .str (lc "claude_code.token.usage"))]),
     (lc "dataPoints", .arr
       [.obj [(lc "attributes", .obj
                 [(lc "type", .str (lc "output")),
                  (lc "session.id", .str (lc "s1"))]),
              (lc "value", .num 42 0)]])]

/-- A log with two token-usage metric blocks for session `s1`. -/
def logC5 : List Char :=
  lc "\x7bdescriptor: \x7bname: \x27claude_code.token.usage\x27\x7d, dataPoints: [\x7battributes: \x7btype: \x27input\x27, \x27session.id\x27: \x27s1\x27\x7d, value: 1\x7d]\x7d\n\x7bdescriptor: \x7bname: \x27claude_code.token.usage\x27\x7d, dataPoints: [\x7battributes: \x7btype: \x27output\x27, \x27session.id\x27: \x27s1\x27\x7d, value: 2\x7d]\x7d\n"

/-- The first parsed block of `logC5`. -/
def metricC5a : Json :=
  Json.obj
    [(lc "descriptor", .obj [(lc "name", .str (lc "claude_code.token.usage"))]),
     (lc "dataPoints", .arr
       [.obj [(lc "attributes", .obj
                 [(lc "type", .str (lc "input")),
                  (lc "session.id", .str (lc "s1"))]),
              (lc "value", .num 1 0)]])]

/-- The second parsed block of `logC5`. -/
def metricC5b : Json :=
  Json.obj
    [(lc "descriptor", .obj [(lc "name", .str (lc "claude_code.token.usage"))]),
     (lc "dataPoints", .arr
       [.obj [(lc "attributes", .obj
                 [(lc "type", .str (lc "output")),
                  (lc "session.id", .str (lc "s1"))]),
              (lc "value", .num 2 0)]])]

/-- A metric with a descriptor and an empty data-point list. -/
def metricC10 : Json :=
  Json.obj
    [(lc "descriptor", .obj [(lc "name", .str (lc "foo.bar"))]),
     (lc "dataPoints", .arr [])]

/-- A transcript entry whose content list opens with a tool invocation and
only then carries a text block. -/
def entryC7 : Json :=
  Json.obj
    [(lc "role", .str (lc "assistant")),
     (lc "content", .arr
       [.obj [(lc "type", .str (lc "tool_use")), (lc "name", .str (lc "Bash"))],
        .obj [(lc "type", .str (lc "text")), (lc "text", .str (lc "hello"))]]),
     (lc "usage", .obj [(lc "input_tokens", .num 5 0)])]

/-! ## Theorems -/

set_option maxRecDepth 100000

/-- An upsert always leaves a row with the new id present. -/
theorem upsertSession_mem (rows : List SessionRow) (r : SessionRow) :
    ∃ q ∈ upsertSession rows r, q.session_id = r.session_id := by
  unfold upsertSession
  by_cases h : rows.any (fun q => q.session_id == r.session_id) = true
  · simp only [h, if_true]
    rcases List.any_eq_true.mp h with ⟨q, hq, hbeq⟩
    exact ⟨q, hq, by simpa using hbeq⟩
  · simp only [h]
    exact ⟨r, by simp, rfl⟩

/-- C1.  A log holding a single `claude_code.token.usage` metric block whose
one data point carries the attributes `type: output`, `session.id: s1` and
the value 42 parses to exactly that block, and storing it appends exactly
one `token_usage` row with token type `output`, value 42 and session `s1`,
and upserts a session row for `s1` in the same run, whatever the prior
contents of the store and whatever the ingestion timestamp. -/
theorem c1_single_token_block_ingestion (db : DB) (ts : List Char) :
    extract_metrics_from_log logC1 = [metricC1]
    ∧ (store_metric db metricC1 ts).token_usage
        = db.token_usage
            ++ [⟨lc "s1", ts, lc "unknown", .str (lc "output"), .num 42 0⟩]
    ∧ ∃ r ∈ (store_metric db metricC1 ts).sessions, r.session_id = lc "s1" := by
  refine ⟨rfl, rfl, ?_⟩
  have h : (store_metric db metricC1 ts).sessions
      = upsertSession db.sessions ⟨lc "s1", lc "unknown", lc "unknown", ts, none⟩ := rfl
  rw [h]
  exact upsertSession_mem _ _

/-- C3.  The lenient object parser is exactly: single-quote squashing, then
bareword-key quoting, then trailing-comma removal, then a strict parse; the
span `\x7bname: 'foo', count: 3,\x7d` parses to the record with `name = "foo"`
and `count = 3`; an unparseable span yields the not-parseable result `none`
(the parser is a total function into `Option`, it cannot abort its caller). -/
theorem c3_lenient_parser_contract :
    (∀ b : List Char, parse_metric_block b
        = jsonLoads (pyStripTrailingCommas (pyQuoteKeys (pySquashQuotes b))))
    ∧ parse_metric_block (lc "\x7bname: \x27foo\x27, count: 3,\x7d")
        = some (.obj [(lc "name", .str (lc "foo")), (lc "count", .num 3 0)])
    ∧ parse_metric_block (lc "\x7bnot valid") = none :=
  ⟨fun _ => rfl, rfl, rfl⟩

/-- C5, counterexample.  The claim says all inserts of one ingestion call
are committed together exactly once at the end of the whole-file batch.  In
the code `store_metric` itself commits (line 203), so on a two-block log the
run commits twice, and after the first block alone — an intermediate point
of the run — a token-usage row is already committed and visible. -/
theorem c5_counterexample_commit_per_block :
    extract_metrics_from_log logC5 = [metricC5a, metricC5b]
    ∧ (store_metric_conn freshConn metricC5a (lc "T1")).committed.token_usage.length = 1
    ∧ (parse_log_file freshConn logC5 (lc "T1")).commits = 2 :=
  ⟨rfl, rfl, rfl⟩

/-- C5, amended.  Inserts are committed once per stored metric block: the
insert phase of `store_metric` leaves the committed state untouched, and the
call ends with exactly one commit that publishes the pending state — so an
abort inside one block's processing loses only that block's pending rows,
while blocks stored earlier in the same run are already visible. -/
theorem c5_amended_commit_per_metric_block (c : Conn) (m : Json) (ts : List Char)
    (h : metricStorable m = true) :
    (storeMetricInserts c m ts).committed = c.committed
    ∧ store_metric_conn c m ts = commitConn (storeMetricInserts c m ts)
    ∧ (store_metric_conn c m ts).commits = c.commits + 1
    ∧ (store_metric_conn c m ts).committed = (store_metric_conn c m ts).current := by
  unfold store_metric_conn
  rw [h]
  exact ⟨rfl, rfl, rfl, rfl⟩

/-- Witness for the amended C5 at a concrete metric. -/
theorem c5_amended_commit_per_metric_block_witness :
    metricStorable metricC5a = true
    ∧ (store_metric_conn freshConn metricC5a (lc "T1")).commits = freshConn.commits + 1 :=
  ⟨rfl, (c5_amended_commit_per_metric_block freshConn metricC5a (lc "T1") rfl).2.2.1⟩

/-- C8.  The session upsert inserts only if the session id is absent: when a
row with the id already exists, the table is returned unchanged (so every
attribute of the existing row, `started_at` included, survives); when no row
has the id, the new row is appended. -/
theorem c8_session_upsert_first_write_wins (rows : List SessionRow)
    (sid uid mdl ts : List Char) :
    ((∃ r ∈ rows, r.session_id = sid) →
        upsertSession rows ⟨sid, uid, mdl, ts, none⟩ = rows)
    ∧ (¬(∃ r ∈ rows, r.session_id = sid) →
        upsertSession rows ⟨sid, uid, mdl, ts, none⟩ = rows ++ [⟨sid, uid, mdl, ts, none⟩]) := by
  constructor
  · intro ⟨r, hr, hid⟩
    unfold upsertSession
    have : rows.any (fun q => q.session_id == sid) = true :=
      List.any_eq_true.mpr ⟨r, hr, by simp [hid]⟩
    simp only [this, if_true]
  · intro h
    unfold upsertSession
    have : rows.any (fun q => q.session_id == sid) = false := by
      rw [List.any_eq_false]
      intro q hq hbeq
      exact h ⟨q, hq, by simpa using hbeq⟩
    simp only [this, Bool.false_eq_true, if_false]

/-- Witness for C8: a second upsert of `s1` with different attributes leaves
the stored row untouched. -/
theorem c8_session_upsert_first_write_wins_witness :
    (∃ r ∈ [(⟨lc "s1", lc "u", lc "m", lc "t0", none⟩ : SessionRow)], r.session_id = lc "s1")
    ∧ upsertSession [⟨lc "s1", lc "u", lc "m", lc "t0", none⟩]
        ⟨lc "s1", lc "u2", lc "m2", lc "t1", none⟩
      = [⟨lc "s1", lc "u", lc "m", lc "t0", none⟩] := by
  refine ⟨⟨⟨lc "s1", lc "u", lc "m", lc "t0", none⟩, by simp, rfl⟩, ?_⟩
  exact (c8_session_upsert_first_write_wins _ (lc "s1") (lc "u2") (lc "m2") (lc "t1")).1
    ⟨⟨lc "s1", lc "u", lc "m", lc "t0", none⟩, by simp, rfl⟩

/-- C10.  Storing a metric that has a descriptor but an empty `dataPoints`
list appends exactly one `raw_metrics` archive row and leaves every other
table unchanged. -/
theorem c10_empty_datapoints_archive_only (db : DB) (ts : List Char) (m : Json)
    (h1 : metricStorable m = true)
    (h2 : m.get? (lc "dataPoints") = some (.arr [])) :
    (store_metric db m ts).raw_metrics
        = db.raw_metrics ++ [⟨ts, storedMetricName m, jsonDumps m⟩]
    ∧ (store_metric db m ts).sessions = db.sessions
    ∧ (store_metric db m ts).token_usage = db.token_usage
    ∧ (store_metric db m ts).cost_usage = db.cost_usage
    ∧ (store_metric db m ts).active_time = db.active_time
    ∧ (store_metric db m ts).code_activity = db.code_activity
    ∧ (store_metric db m ts).session_messages = db.session_messages := by
  have hdp : metricDataPoints m = [] := by
    unfold metricDataPoints Json.getD
    rw [h2]
    rfl
  unfold store_metric
  rw [h1, hdp]
  exact ⟨rfl, rfl, rfl, rfl, rfl, rfl, rfl⟩

/-- Witness for C10 at a concrete empty-data-point metric. -/
theorem c10_empty_datapoints_archive_only_witness :
    metricStorable metricC10 = true
    ∧ metricC10.get? (lc "dataPoints") = some (.arr [])
    ∧ (store_metric emptyDB metricC10 (lc "T")).sessions = emptyDB.sessions :=
  ⟨rfl, rfl, (c10_empty_datapoints_archive_only emptyDB (lc "T") metricC10 rfl rfl).2.1⟩

/-- C6.  A parse failure on one candidate block or one transcript line skips
only that block or line: the extraction output over the span list, and the
parsed-entries output over the line list, are exactly what they would be
with the failing item removed (so every subsequent item is still processed
and no record of the skip appears anywhere in the output), and the metric
extractor is exactly the per-span parse filter over its candidate spans. -/
theorem c6_parse_failure_skips_one_item :
    (∀ (pre post : List (List Char)) (bad : List Char),
        parse_metric_block bad = none →
        (pre ++ bad :: post).filterMap parsedTruthy
          = (pre ++ post).filterMap parsedTruthy)
    ∧ (∀ log : List Char,
        extract_metrics_from_log log = (extractSpans log).filterMap parsedTruthy)
    ∧ (∀ (pre post : List (List Char)) (bad : List Char),
        jsonLoads bad = none →
        parse_session_jsonl (pre ++ bad :: post) = parse_session_jsonl (pre ++ post)) := by
  refine ⟨?_, ?_, ?_⟩
  · intro pre post bad h
    have hb : parsedTruthy bad = none := by
      unfold parsedTruthy
      rw [h]
    simp [List.filterMap_append, List.filterMap_cons, hb]
  · intro log
    unfold extract_metrics_from_log extractSpans
    rw [List.filterMap_filterMap]
  · intro pre post bad h
    have hb : (if lineNonBlank bad then jsonLoads bad else none) = none := by
      by_cases hnb : lineNonBlank bad = true
      · simp [hnb, h]
      · simp [hnb]
    unfold parse_session_jsonl
    simp only [List.filterMap_append, List.filterMap_cons, hb]

/-- Witness for C6 at a concrete failing block and line between two good
ones. -/
theorem c6_parse_failure_skips_one_item_witness :
    parse_metric_block (lc "\x7bbroken") = none
    ∧ jsonLoads (lc "\x7bbroken") = none
    ∧ ([lc "\x7ba: 1\x7d"] ++ (lc "\x7bbroken") :: [lc "\x7bb: 2\x7d"]).filterMap parsedTruthy
        = ([lc "\x7ba: 1\x7d"] ++ [lc "\x7bb: 2\x7d"]).filterMap parsedTruthy
    ∧ parse_session_jsonl ([lc "\x7b\x22a\x22: 1\x7d"] ++ (lc "\x7bbroken") :: [lc "\x7b\x22b\x22: 2\x7d"])
        = parse_session_jsonl ([lc "\x7b\x22a\x22: 1\x7d"] ++ [lc "\x7b\x22b\x22: 2\x7d"]) :=
  ⟨rfl, rfl,
   c6_parse_failure_skips_one_item.1 [lc "\x7ba: 1\x7d"] [lc "\x7bb: 2\x7d"] (lc "\x7bbroken") rfl,
   c6_parse_failure_skips_one_item.2.2 [lc "\x7b\x22a\x22: 1\x7d"] [lc "\x7b\x22b\x22: 2\x7d"]
     (lc "\x7bbroken") rfl⟩

/-- Each term the token-type sum adds is non-negative when every stored
value is a non-negative integer. -/
theorem tokenTypeSum_nonneg (rows : List TokenRow) (tt : List Char)
    (h : ∀ r ∈ rows, isNatNumJson r.value = true) :
    0 ≤ tokenTypeSum rows tt := by
  unfold tokenTypeSum
  suffices haux : ∀ (l : List TokenRow) (a : ℚ), (∀ r ∈ l, isNatNumJson r.value = true) →
      0 ≤ a →
      0 ≤ l.foldl
        (fun a r =>
          a + (match r.token_type, r.value with
               | .str s, .num m e => if s = tt then numValQ m e else 0
               | _, _ => 0)) a by
    exact haux rows 0 h le_rfl
  intro l
  induction l with
  | nil => intro a _ ha; simpa using ha
  | cons r l ih =>
    intro a hall ha
    rw [List.foldl_cons]
    apply ih
    · intro q hq
      exact hall q (List.mem_cons_of_mem r hq)
    have hterm : (0 : ℚ) ≤
        (match r.token_type, r.value with
         | .str s, .num m e => if s = tt then numValQ m e else 0
         | _, _ => 0) := by
      have hr := hall r (List.mem_cons_self r l)
      cases htt : r.token_type with
      | str s =>
        cases hv : r.value with
        | num m e =>
          rw [hv] at hr
          unfold isNatNumJson at hr
          have hm : 0 ≤ m := by
            have := (Bool.and_eq_true _ _).mp hr
            exact of_decide_eq_true this.1
          by_cases hs : s = tt
          · simp only [hs, if_true]
            unfold numValQ
            exact mul_nonneg (by exact_mod_cast hm) (le_of_lt (zpow_pos (by norm_num) e))
          · simp [hs]
        | null => simp
        | bool b => simp
        | str s2 => simp
        | arr l2 => simp
        | obj l2 => simp
      | null => simp
      | bool b => simp
      | num m e => simp
      | arr l2 => simp
      | obj l2 => simp
    linarith

/-- C9.  Over a store whose token-usage values are non-negative integers,
the cache-efficiency computation returns
`cache_hit_ratio = cache_read / (cache_read + cache_creation)` and
`cache_efficiency = cache_read / (cache_read + input)`, each equal to 0
when both of its summands are zero (the sums being the SQL per-type totals
over the `token_usage` table). -/
theorem c9_cache_ratio_formulas (rows : List TokenRow)
    (h : ∀ r ∈ rows, isNatNumJson r.value = true) :
    (calculate_cache_metrics rows).cache_hit_ratio
        = tokenTypeSum rows (lc "cacheRead")
            / (tokenTypeSum rows (lc "cacheRead") + tokenTypeSum rows (lc "cacheCreation"))
    ∧ (tokenTypeSum rows (lc "cacheRead") = 0 ∧ tokenTypeSum rows (lc "cacheCreation") = 0 →
        (calculate_cache_metrics rows).cache_hit_ratio = 0)
    ∧ (calculate_cache_metrics rows).cache_efficiency
        = tokenTypeSum rows (lc "cacheRead")
            / (tokenTypeSum rows (lc "cacheRead") + tokenTypeSum rows (lc "input"))
    ∧ (tokenTypeSum rows (lc "cacheRead") = 0 ∧ tokenTypeSum rows (lc "input") = 0 →
        (calculate_cache_metrics rows).cache_efficiency = 0) := by
  have hr := tokenTypeSum_nonneg rows (lc "cacheRead") h
  have hc := tokenTypeSum_nonneg rows (lc "cacheCreation") h
  have hi := tokenTypeSum_nonneg rows (lc "input") h
  unfold calculate_cache_metrics
  refine ⟨?_, ?_, ?_, ?_⟩
  · by_cases hpos : tokenTypeSum rows (lc "cacheRead") + tokenTypeSum rows (lc "cacheCreation") > 0
    · simp only [hpos, if_true]
    · have hz : tokenTypeSum rows (lc "cacheRead") + tokenTypeSum rows (lc "cacheCreation") = 0 := by
        linarith
      have hrz : tokenTypeSum rows (lc "cacheRead") = 0 := by linarith
      simp [hpos, hz, hrz]
  · intro ⟨h1, h2⟩
    have : ¬(tokenTypeSum rows (lc "cacheRead") + tokenTypeSum rows (lc "cacheCreation") > 0) := by
      rw [h1, h2]; norm_num
    simp [this]
  · by_cases hpos : tokenTypeSum rows (lc "cacheRead") + tokenTypeSum rows (lc "input") > 0
    · simp only [hpos, if_true]
    · have hz : tokenTypeSum rows (lc "cacheRead") + tokenTypeSum rows (lc "input") = 0 := by
        linarith
      have hrz : tokenTypeSum rows (lc "cacheRead") = 0 := by linarith
      simp [hpos, hz, hrz]
  · intro ⟨h1, h2⟩
    have : ¬(tokenTypeSum rows (lc "cacheRead") + tokenTypeSum rows (lc "input") > 0) := by
      rw [h1, h2]; norm_num
    simp [this]

/-- Witness for C9 over a concrete three-row store. -/
theorem c9_cache_ratio_formulas_witness :
    (∀ r ∈ [(⟨lc "s1", lc "T", lc "m", .str (lc "cacheRead"), .num 6 0⟩ : TokenRow),
            ⟨lc "s1", lc "T", lc "m", .str (lc "cacheCreation"), .num 2 0⟩,
            ⟨lc "s1", lc "T", lc "m", .str (lc "input"), .num 4 0⟩],
        isNatNumJson r.value = true)
    ∧ (calculate_cache_metrics
        [⟨lc "s1", lc "T", lc "m", .str (lc "cacheRead"), .num 6 0⟩,
         ⟨lc "s1", lc "T", lc "m", .str (lc "cacheCreation"), .num 2 0⟩,
         ⟨lc "s1", lc "T", lc "m", .str (lc "input"), .num 4 0⟩]).cache_hit_ratio
      = tokenTypeSum
          [⟨lc "s1", lc "T", lc "m", .str (lc "cacheRead"), .num 6 0⟩,
           ⟨lc "s1", lc "T", lc "m", .str (lc "cacheCreation"), .num 2 0⟩,
           ⟨lc "s1", lc "T", lc "m", .str (lc "input"), .num 4 0⟩] (lc "cacheRead")
        / (tokenTypeSum
            [⟨lc "s1", lc "T", lc "m", .str (lc "cacheRead"), .num 6 0⟩,
             ⟨lc "s1", lc "T", lc "m", .str (lc "cacheCreation"), .num 2 0⟩,
             ⟨lc "s1", lc "T", lc "m", .str (lc "input"), .num 4 0⟩] (lc "cacheRead")
           + tokenTypeSum
              [⟨lc "s1", lc "T", lc "m", .str (lc "cacheRead"), .num 6 0⟩,
               ⟨lc "s1", lc "T", lc "m", .str (lc "cacheCreation"), .num 2 0⟩,
               ⟨lc "s1", lc "T", lc "m", .str (lc "input"), .num 4 0⟩] (lc "cacheCreation")) := by
  refine ⟨by decide, ?_⟩
  exact (c9_cache_ratio_formulas _ (by decide)).1

/-- `split('.')` never yields the empty list. -/
theorem splitDotAll_ne_nil (s : List Char) : splitDotAll s ≠ [] := by
  cases s with
  | nil => simp [splitDotAll]
  | cons c rest =>
    unfold splitDotAll
    cases h : splitDotAll rest with
    | nil => simp
    | cons hh tt =>
      by_cases hc : c = '.' <;> simp [hc]

/-- Without a dot, `split('.')` is the singleton of the whole string. -/
theorem splitDotAll_no_dot (s : List Char) (h : s.contains '.' = false) :
    splitDotAll s = [s] := by
  induction s with
  | nil => rfl
  | cons c rest ih =>
    rw [List.contains_cons] at h
    have hc : ¬(c = '.') := by
      intro hc
      simp [hc] at h
    have hrest : rest.contains '.' = false := by
      rcases Bool.or_eq_false_iff.mp h with ⟨_, h2⟩
      exact h2
    unfold splitDotAll
    rw [ih hrest]
    simp [hc]

/-- With a dot present, `split('.')` has at least two pieces. -/
theorem splitDotAll_two_pieces (s : List Char) (h : s.contains '.' = true) :
    2 ≤ (splitDotAll s).length := by
  induction s with
  | nil => simp at h
  | cons c rest ih =>
    obtain ⟨hh, tt, heq⟩ : ∃ hh tt, splitDotAll rest = hh :: tt := by
      cases hq : splitDotAll rest with
      | nil => exact absurd hq (splitDotAll_ne_nil rest)
      | cons a b => exact ⟨a, b, rfl⟩
    have hunf : splitDotAll (c :: rest)
        = if c = '.' then [] :: hh :: tt else (c :: hh) :: tt := by
      unfold splitDotAll
      rw [heq]
    rw [hunf]
    by_cases hc : c = '.'
    · rw [if_pos hc]
      simp
    · rw [if_neg hc]
      rw [List.contains_cons] at h
      have hrest : rest.contains '.' = true := by
        rcases Bool.or_eq_true_iff.mp h with h1 | h2
        · exact absurd (eq_comm.mp (by simpa using h1)) hc
        · exact h2
      have h2 := ih hrest
      rw [heq] at h2
      simp only [List.length_cons] at h2 ⊢
      omega

/-- Without a dot, the suffix-after-last-dot is the whole string. -/
theorem afterLastDot_no_dot (s : List Char) (h : s.contains '.' = false) :
    afterLastDot s = s := by
  cases s with
  | nil => rfl
  | cons c rest =>
    rw [List.contains_cons, Bool.or_eq_false_iff] at h
    obtain ⟨h1, h2⟩ := h
    have hc : ¬(c = '.') := by
      intro hcc
      subst hcc
      simp at h1
    have hcond : ¬(c = '.' ∨ rest.contains '.' = true) := by
      rintro (hcc | hrr)
      · exact hc hcc
      · rw [h2] at hrr
        exact Bool.noConfusion hrr
    have hstep : afterLastDot (c :: rest)
        = if c = '.' ∨ rest.contains '.' = true then afterLastDot rest
          else c :: rest := rfl
    rw [hstep, if_neg hcond]

/-- The last piece of `split('.')` is the suffix after the last dot. -/
theorem splitDotAll_getLast_eq_afterLastDot (s : List Char) :
    (splitDotAll s).getLastD [] = afterLastDot s := by
  induction s with
  | nil => rfl
  | cons c rest ih =>
    obtain ⟨hh, tt, heq⟩ : ∃ hh tt, splitDotAll rest = hh :: tt := by
      cases hq : splitDotAll rest with
      | nil => exact absurd hq (splitDotAll_ne_nil rest)
      | cons a b => exact ⟨a, b, rfl⟩
    have hunf : splitDotAll (c :: rest)
        = if c = '.' then [] :: hh :: tt else (c :: hh) :: tt := by
      unfold splitDotAll
      rw [heq]
    rw [hunf]
    by_cases hc : c = '.'
    · rw [if_pos hc]
      have hcond : c = '.' ∨ rest.contains '.' = true := Or.inl hc
      have hstep : afterLastDot (c :: rest)
          = if c = '.' ∨ rest.contains '.' = true then afterLastDot rest
            else c :: rest := rfl
      have hrhs : afterLastDot (c :: rest) = afterLastDot rest := by
        rw [hstep, if_pos hcond]
      rw [hrhs, List.getLastD_cons, ← heq]
      exact ih
    · rw [if_neg hc]
      by_cases hd : rest.contains '.' = true
      · have hcond : c = '.' ∨ rest.contains '.' = true := Or.inr hd
        have hstep : afterLastDot (c :: rest)
            = if c = '.' ∨ rest.contains '.' = true then afterLastDot rest
              else c :: rest := rfl
        have hrhs : afterLastDot (c :: rest) = afterLastDot rest := by
          rw [hstep, if_pos hcond]
        rw [hrhs]
        have h2 := splitDotAll_two_pieces rest hd
        rw [heq] at h2
        obtain ⟨t1, tr, htt⟩ : ∃ t1 tr, tt = t1 :: tr := by
          cases htq : tt with
          | nil =>
            rw [htq] at h2
            simp at h2
          | cons a b => exact ⟨a, b, rfl⟩
        subst htt
        calc ((c :: hh) :: t1 :: tr).getLastD [] = (t1 :: tr).getLastD (c :: hh) :=
              List.getLastD_cons _ _ _
          _ = tr.getLastD t1 := List.getLastD_cons _ _ _
          _ = (t1 :: tr).getLastD hh := (List.getLastD_cons _ _ _).symm
          _ = (hh :: t1 :: tr).getLastD [] := (List.getLastD_cons _ _ _).symm
          _ = (splitDotAll rest).getLastD [] := by rw [heq]
          _ = afterLastDot rest := ih
      · have hrf : rest.contains '.' = false := by
          cases hq : rest.contains '.' with
          | false => rfl
          | true => exact absurd hq hd
        have hcond : ¬(c = '.' ∨ rest.contains '.' = true) := by
          rintro (h1 | h2)
          · exact hc h1
          · rw [hrf] at h2
            exact Bool.noConfusion h2
        have hstep : afterLastDot (c :: rest)
            = if c = '.' ∨ rest.contains '.' = true then afterLastDot rest
              else c :: rest := rfl
        have hrhs : afterLastDot (c :: rest) = c :: rest := by
          rw [hstep, if_neg hcond]
        rw [hrhs]
        have hone : splitDotAll rest = [rest] := splitDotAll_no_dot rest hrf
        rw [hone] at heq
        injection heq with e1 e2
        subst e1
        subst e2
        simp

/-- The code-side activity type equals the spec-side suffix after the last
dot. -/
theorem pySplitDotLast_eq_afterLastDot (name : List Char) :
    pySplitDotLast name = afterLastDot name := by
  unfold pySplitDotLast
  by_cases h : name.contains '.' = true
  · rw [if_pos h]
    exact splitDotAll_getLast_eq_afterLastDot name
  · have hf : name.contains '.' = false := by
      cases hq : name.contains '.' with
      | false => rfl
      | true => exact absurd hq h
    rw [if_neg h]
    exact (afterLastDot_no_dot name hf).symm

/-- C4.  Each data point is classified into exactly one usage-event variant
by case-insensitive substring match on the metric name, in precedence order
token, cost, active_time, then commit/pull_request/lines_of_code: exactly
the matching table grows by one row (token rows carry the `type` attribute
with default `unknown`; code-activity rows carry the substring after the
last dot of the name, or the whole name without a dot), and a name matching
no keyword appends to no usage table. -/
theorem c4_classification_precedence (db : DB) (name : List Char) (dp : Json)
    (ts : List Char) :
    (isSubstr (lc "token") (lowerStr name) = true →
        (storeDataPoint db name dp ts).token_usage
            = db.token_usage ++ [⟨dpSession dp, ts, dpModel dp, dpTokenType dp, dpValue dp⟩]
        ∧ (storeDataPoint db name dp ts).cost_usage = db.cost_usage
        ∧ (storeDataPoint db name dp ts).active_time = db.active_time
        ∧ (storeDataPoint db name dp ts).code_activity = db.code_activity)
    ∧ (isSubstr (lc "token") (lowerStr name) = false →
       isSubstr (lc "cost") (lowerStr name) = true →
        (storeDataPoint db name dp ts).cost_usage
            = db.cost_usage ++ [⟨dpSession dp, ts, dpModel dp, dpValue dp⟩]
        ∧ (storeDataPoint db name dp ts).token_usage = db.token_usage
        ∧ (storeDataPoint db name dp ts).active_time = db.active_time
        ∧ (storeDataPoint db name dp ts).code_activity = db.code_activity)
    ∧ (isSubstr (lc "token") (lowerStr name) = false →
       isSubstr (lc "cost") (lowerStr name) = false →
       isSubstr (lc "active_time") (lowerStr name) = true →
        (storeDataPoint db name dp ts).active_time
            = db.active_time ++ [⟨dpSession dp, ts, dpValue dp⟩]
        ∧ (storeDataPoint db name dp ts).token_usage = db.token_usage
        ∧ (storeDataPoint db name dp ts).cost_usage = db.cost_usage
        ∧ (storeDataPoint db name dp ts).code_activity = db.code_activity)
    ∧ (isSubstr (lc "token") (lowerStr name) = false →
       isSubstr (lc "cost") (lowerStr name) = false →
       isSubstr (lc "active_time") (lowerStr name) = false →
       classifyKeywords.any (fun k => isSubstr k (lowerStr name)) = true →
        (storeDataPoint db name dp ts).code_activity
            = db.code_activity ++ [⟨dpSession dp, ts, afterLastDot name, dpValue dp⟩]
        ∧ (storeDataPoint db name dp ts).token_usage = db.token_usage
        ∧ (storeDataPoint db name dp ts).cost_usage = db.cost_usage
        ∧ (storeDataPoint db name dp ts).active_time = db.active_time)
    ∧ (isSubstr (lc "token") (lowerStr name) = false →
       isSubstr (lc "cost") (lowerStr name) = false →
       isSubstr (lc "active_time") (lowerStr name) = false →
       classifyKeywords.any (fun k => isSubstr k (lowerStr name)) = false →
        (storeDataPoint db name dp ts).token_usage = db.token_usage
        ∧ (storeDataPoint db name dp ts).cost_usage = db.cost_usage
        ∧ (storeDataPoint db name dp ts).active_time = db.active_time
        ∧ (storeDataPoint db name dp ts).code_activity = db.code_activity) := by
  refine ⟨?_, ?_, ?_, ?_, ?_⟩
  · intro h1
    simp [storeDataPoint, h1]
  · intro h1 h2
    simp [storeDataPoint, h1, h2]
  · intro h1 h2 h3
    simp [storeDataPoint, h1, h2, h3]
  · intro h1 h2 h3 h4
    simp [storeDataPoint, h1, h2, h3, h4, pySplitDotLast_eq_afterLastDot]
  · intro h1 h2 h3 h4
    simp [storeDataPoint, h1, h2, h3, h4]

/-- Witness for C4 on the cost branch at a concrete metric name and data
point. -/
theorem c4_classification_precedence_witness :
    isSubstr (lc "token") (lowerStr (lc "claude_code.cost.usage")) = false
    ∧ isSubstr (lc "cost") (lowerStr (lc "claude_code.cost.usage")) = true
    ∧ (storeDataPoint emptyDB (lc "claude_code.cost.usage")
          (.obj [(lc "attributes", .obj [(lc "session.id", .str (lc "s1"))]),
                 (lc "value", .num 3 0)]) (lc "T")).cost_usage
        = emptyDB.cost_usage
            ++ [⟨dpSession (.obj [(lc "attributes", .obj [(lc "session.id", .str (lc "s1"))]),
                                  (lc "value", .num 3 0)]),
                 lc "T",
                 dpModel (.obj [(lc "attributes", .obj [(lc "session.id", .str (lc "s1"))]),
                                (lc "value", .num 3 0)]),
                 dpValue (.obj [(lc "attributes", .obj [(lc "session.id", .str (lc "s1"))]),
                                (lc "value", .num 3 0)])⟩] :=
  ⟨rfl, rfl,
   ((c4_classification_precedence emptyDB (lc "claude_code.cost.usage")
       (.obj [(lc "attributes", .obj [(lc "session.id", .str (lc "s1"))]),
              (lc "value", .num 3 0)]) (lc "T")).2.1 rfl rfl).1⟩

/-- The first-match tool scan of the merge loop is `List.find?` over the
tool-use test, with the name (default `unknown_tool`) extracted from the
found element. -/
theorem toolScan_eq_find (items : List Json) :
    toolScan items = (items.find? isToolUseItem).map toolNameOf := by
  induction items with
  | nil => rfl
  | cons item rest ih =>
    cases item with
    | obj kvs =>
      have hstep : toolScan (Json.obj kvs :: rest)
          = match (Json.obj kvs).get? (lc "type") with
            | some (.str t) =>
              if t = lc "tool_use" then
                some (match (Json.obj kvs).get? (lc "name") with
                      | some (.str n) => n
                      | some _ => lc "unknown_tool"
                      | none => lc "unknown_tool")
              else toolScan rest
            | _ => toolScan rest := rfl
      cases hty : (Json.obj kvs).get? (lc "type") with
      | none =>
        have hf : isToolUseItem (Json.obj kvs) = false := by
          unfold isToolUseItem
          rw [hty]
        rw [hstep, hty, List.find?_cons_of_neg _ (by simp [hf])]
        exact ih
      | some v =>
        cases v with
        | str t =>
          by_cases htu : t = lc "tool_use"
          · have hp : isToolUseItem (Json.obj kvs) = true := by
              unfold isToolUseItem
              rw [hty]
              simp [htu]
            rw [hstep, hty, List.find?_cons_of_pos _ hp, Option.map_some']
            simp only [htu, if_true]
            rfl
          · have hf : isToolUseItem (Json.obj kvs) = false := by
              unfold isToolUseItem
              rw [hty]
              simp [htu]
            rw [hstep, hty, List.find?_cons_of_neg _ (by simp [hf])]
            simp only [htu, if_false]
            exact ih
        | null =>
          have hf : isToolUseItem (Json.obj kvs) = false := by
            unfold isToolUseItem
            rw [hty]
          rw [hstep, hty, List.find?_cons_of_neg _ (by simp [hf])]
          exact ih
        | bool b =>
          have hf : isToolUseItem (Json.obj kvs) = false := by
            unfold isToolUseItem
            rw [hty]
          rw [hstep, hty, List.find?_cons_of_neg _ (by simp [hf])]
          exact ih
        | num m e =>
          have hf : isToolUseItem (Json.obj kvs) = false := by
            unfold isToolUseItem
            rw [hty]
          rw [hstep, hty, List.find?_cons_of_neg _ (by simp [hf])]
          exact ih
        | arr l =>
          have hf : isToolUseItem (Json.obj kvs) = false := by
            unfold isToolUseItem
            rw [hty]
          rw [hstep, hty, List.find?_cons_of_neg _ (by simp [hf])]
          exact ih
        | obj kvs2 =>
          have hf : isToolUseItem (Json.obj kvs) = false := by
            unfold isToolUseItem
            rw [hty]
          rw [hstep, hty, List.find?_cons_of_neg _ (by simp [hf])]
          exact ih
    | null =>
      rw [show toolScan (Json.null :: rest) = toolScan rest from rfl,
          List.find?_cons_of_neg _ (by simp [show isToolUseItem Json.null = false from rfl])]
      exact ih
    | bool b =>
      rw [show toolScan (Json.bool b :: rest) = toolScan rest from rfl,
          List.find?_cons_of_neg _ (by simp [show isToolUseItem (Json.bool b) = false from rfl])]
      exact ih
    | num m e =>
      rw [show toolScan (Json.num m e :: rest) = toolScan rest from rfl,
          List.find?_cons_of_neg _ (by simp [show isToolUseItem (Json.num m e) = false from rfl])]
      exact ih
    | str s =>
      rw [show toolScan (Json.str s :: rest) = toolScan rest from rfl,
          List.find?_cons_of_neg _ (by simp [show isToolUseItem (Json.str s) = false from rfl])]
      exact ih
    | arr l =>
      rw [show toolScan (Json.arr l :: rest) = toolScan rest from rfl,
          List.find?_cons_of_neg _ (by simp [show isToolUseItem (Json.arr l) = false from rfl])]
      exact ih

/-- The merge loop appends exactly one row per parsed entry. -/
theorem merge_data_rows (db : DB) (sid : List Char) (entries : List Json) :
    (merge_data db sid entries).session_messages
      = db.session_messages ++ entries.map (entryToRow sid) := by
  induction entries generalizing db with
  | nil => simp [merge_data]
  | cons e es ih =>
    unfold merge_data
    rw [List.foldl_cons]
    have := ih { db with
      session_messages := db.session_messages ++ [entryToRow sid e] }
    unfold merge_data at this
    rw [this]
    simp

/-- C7, counterexample.  The claim says a persisted transcript row contains
a timestamp and a preview of the first text-bearing content block.  On an
entry whose content list opens with a tool invocation followed by a text
block reading `hello`, the inserted row has a NULL timestamp (the INSERT of
lines 118-128 never names the timestamp column) and its preview is the
string form of the first element, not the text `hello` of the first
text-bearing element. -/
theorem c7_counterexample_timestamp_and_preview :
    (entryToRow (lc "s1") entryC7).timestamp = none
    ∧ (entryToRow (lc "s1") entryC7).content_preview ≠ (lc "hello").take 200
    ∧ (entryToRow (lc "s1") entryC7).tool_use = some (lc "Bash") :=
  ⟨rfl, by decide, rfl⟩

/-- C7, amended.  For every parsed transcript line the merger persists
exactly one row, whose fields are: the session id from the file stem; no
timestamp (NULL — the INSERT omits that column); the role with default
`unknown`; a preview of the first 200 characters taken from the content
itself when it is a string, and from the FIRST element of a content list —
that element's `text` field when it is an object carrying one, else its
string form, empty for an empty list; the name (default `unknown_tool`) of
the first content element whose type is `tool_use` when one exists, else no
tool; and the four usage counters of the `usage` sub-object, each
defaulting to zero when absent. -/
theorem c7_amended_transcript_row (db : DB) (sid : List Char) (entries : List Json) :
    (merge_data db sid entries).session_messages
        = db.session_messages ++ entries.map (entryToRow sid)
    ∧ (∀ e : Json, (entryToRow sid e).session_id = sid
        ∧ (entryToRow sid e).timestamp = none)
    ∧ (∀ e : Json, e.get? (lc "role") = none → (entryToRow sid e).role = lc "unknown")
    ∧ (∀ (e : Json) (s : List Char), e.get? (lc "role") = some (.str s) →
        (entryToRow sid e).role = s)
    ∧ (∀ (e : Json) (s : List Char), e.getD (lc "content") (Json.str []) = .str s →
        (entryToRow sid e).content_preview = s.take 200)
    ∧ (∀ e : Json, e.getD (lc "content") (Json.str []) = .arr [] →
        (entryToRow sid e).content_preview = [])
    ∧ (∀ (e : Json) (kvs : List (List Char × Json)) (t : List Json) (s : List Char),
        e.getD (lc "content") (Json.str []) = .arr (.obj kvs :: t) →
        (Json.obj kvs).get? (lc "text") = some (.str s) →
        (entryToRow sid e).content_preview = s.take 200)
    ∧ (∀ (e : Json) (kvs : List (List Char × Json)) (t : List Json),
        e.getD (lc "content") (Json.str []) = .arr (.obj kvs :: t) →
        (Json.obj kvs).get? (lc "text") = none →
        (entryToRow sid e).content_preview = (pyStr (.obj kvs)).take 200)
    ∧ (∀ (e : Json) (items : List Json), e.get? (lc "content") = some (.arr items) →
        (entryToRow sid e).tool_use = (items.find? isToolUseItem).map toolNameOf)
    ∧ (∀ (e : Json) (s : List Char), e.get? (lc "content") = some (.str s) →
        (entryToRow sid e).tool_use = none)
    ∧ (∀ e : Json, e.get? (lc "content") = none → (entryToRow sid e).tool_use = none)
    ∧ (∀ e : Json, e.get? (lc "usage") = none →
        (entryToRow sid e).usage_input_tokens = .num 0 0
        ∧ (entryToRow sid e).usage_output_tokens = .num 0 0
        ∧ (entryToRow sid e).usage_cache_read = .num 0 0
        ∧ (entryToRow sid e).usage_cache_creation = .num 0 0)
    ∧ (∀ e u : Json, e.get? (lc "usage") = some u →
        (entryToRow sid e).usage_input_tokens = u.getD (lc "input_tokens") (.num 0 0)
        ∧ (entryToRow sid e).usage_output_tokens = u.getD (lc "output_tokens") (.num 0 0)
        ∧ (entryToRow sid e).usage_cache_read = u.getD (lc "cache_read_input_tokens") (.num 0 0)
        ∧ (entryToRow sid e).usage_cache_creation
            = u.getD (lc "cache_creation_input_tokens") (.num 0 0)) := by
  refine ⟨merge_data_rows db sid entries, fun e => ⟨rfl, rfl⟩, ?_, ?_, ?_, ?_, ?_, ?_, ?_, ?_, ?_, ?_, ?_⟩
  · intro e h
    unfold entryToRow Json.getStrD
    rw [h]
  · intro e s h
    unfold entryToRow Json.getStrD
    rw [h]
  · intro e s h
    unfold entryToRow previewOf
    rw [h]
  · intro e h
    unfold entryToRow previewOf
    rw [h]
  · intro e kvs t s h ht
    unfold entryToRow previewOf
    rw [h]
    dsimp only
    rw [ht]
  · intro e kvs t h ht
    unfold entryToRow previewOf
    rw [h]
    dsimp only
    rw [ht]
  · intro e items h
    unfold entryToRow toolOf
    rw [h]
    exact toolScan_eq_find items
  · intro e s h
    unfold entryToRow toolOf
    rw [h]
  · intro e h
    unfold entryToRow toolOf
    rw [h]
  · intro e h
    unfold entryToRow extract_usage_from_entry
    rw [show e.getD (lc "usage") (Json.obj []) = Json.obj [] by
          unfold Json.getD
          rw [h]
          rfl]
    exact ⟨rfl, rfl, rfl, rfl⟩
  · intro e u h
    unfold entryToRow extract_usage_from_entry
    rw [show e.getD (lc "usage") (Json.obj []) = u by
          unfold Json.getD
          rw [h]
          rfl]
    exact ⟨rfl, rfl, rfl, rfl⟩

/-- Witness for the amended C7 at a concrete entry carrying a string
content, a usage object and no role. -/
theorem c7_amended_transcript_row_witness :
    (Json.obj [(lc "content", .str (lc "hi")), (lc "usage", .obj [(lc "output_tokens", .num 7 0)])]).getD
        (lc "content") (Json.str []) = .str (lc "hi")
    ∧ (entryToRow (lc "sess")
        (Json.obj [(lc "content", .str (lc "hi")),
                   (lc "usage", .obj [(lc "output_tokens", .num 7 0)])])).content_preview
      = (lc "hi").take 200 :=
  ⟨rfl,
   (c7_amended_transcript_row emptyDB (lc "sess") []).2.2.2.2.1
     (Json.obj [(lc "content", .str (lc "hi")),
                (lc "usage", .obj [(lc "output_tokens", .num 7 0)])]) (lc "hi") rfl⟩

/-- The marker tail test survives appending on the right. -/
theorem afterBraceMarker_append (t u : List Char) (h : afterBraceMarker t = true) :
    afterBraceMarker (t ++ u) = true := by
  induction t with
  | nil => exact absurd h (by simp [afterBraceMarker])
  | cons c t' ih =>
    rw [List.cons_append]
    unfold afterBraceMarker at h ⊢
    by_cases hw : isWsRe c = true
    · rw [if_pos hw] at h ⊢
      exact ih h
    · rw [if_neg hw] at h ⊢
      rw [List.isPrefixOf_iff_prefix] at h ⊢
      have : (c :: t') <+: (c :: t') ++ u := List.prefix_append _ _
      rw [List.cons_append] at this
      exact h.trans this

/-- A marker match never starts at the head when the text is a single open
brace followed by more text: the literal `descriptor:` cannot begin with a
brace. -/
theorem afterBraceMarker_brace_head (u' : List Char) :
    afterBraceMarker ('{' :: u') = false := by
  unfold afterBraceMarker
  have hw : isWsRe '{' = false := rfl
  rw [if_neg (by rw [hw]; exact Bool.noConfusion)]
  rw [show lc "descriptor:" = 'd' :: lc "escriptor:" from rfl]
  cases hq : ('d' :: lc "escriptor:").isPrefixOf ('{' :: u') with
  | false => rfl
  | true =>
    rw [List.isPrefixOf_iff_prefix] at hq
    rw [List.prefix_iff_eq_take] at hq
    rw [show List.take ('d' :: lc "escriptor:").length ('{' :: u')
          = '{' :: List.take (lc "escriptor:").length u' from rfl] at hq
    injection hq with h1 _
    exact absurd h1 (by decide)

/-- The marker tail test does not straddle into an appended part that is
empty or starts with an open brace. -/
theorem afterBraceMarker_unappend (t u : List Char)
    (hu : u = [] ∨ ∃ u', u = '{' :: u')
    (h : afterBraceMarker (t ++ u) = true) : afterBraceMarker t = true := by
  induction t with
  | nil =>
    rcases hu with h0 | ⟨u', h1⟩
    · subst h0
      simpa using h
    · subst h1
      rw [List.nil_append, afterBraceMarker_brace_head] at h
      exact Bool.noConfusion h
  | cons c t' ih =>
    rw [List.cons_append] at h
    unfold afterBraceMarker at h ⊢
    by_cases hw : isWsRe c = true
    · rw [if_pos hw] at h ⊢
      exact ih h
    · rw [if_neg hw] at h ⊢
      rw [List.isPrefixOf_iff_prefix] at h ⊢
      rw [← List.cons_append] at h
      by_cases hlen : (lc "descriptor:").length ≤ (c :: t').length
      · rw [List.prefix_iff_eq_take] at h
        rw [List.take_append_of_le_length hlen] at h
        rw [h]
        exact List.take_prefix _ _
      · exfalso
        rcases hu with h0 | ⟨u', h1⟩
        · subst h0
          rw [List.append_nil] at h
          exact hlen h.length_le
        · subst h1
          push_neg at hlen
          have hget : (lc "descriptor:").get? (c :: t').length = some '{' := by
            rw [List.prefix_iff_eq_take] at h
            rw [h, List.get?_take hlen, List.get?_append_right (le_refl _)]
            simp
          exact absurd (List.get?_mem hget) (by decide)

/-- A marker match survives appending on the right. -/
theorem isMarkerAt_append (a b : List Char) (h : isMarkerAt a = true) :
    isMarkerAt (a ++ b) = true := by
  cases a with
  | nil => exact absurd h (by simp [isMarkerAt])
  | cons c a' =>
    unfold isMarkerAt at h ⊢
    rw [List.cons_append]
    rcases Bool.and_eq_true_iff.mp h with ⟨h1, h2⟩
    rw [Bool.and_eq_true_iff]
    exact ⟨h1, afterBraceMarker_append a' b h2⟩

/-- A marker match over a concatenation whose right part is empty or starts
with an open brace already matches inside the nonempty left part. -/
theorem isMarkerAt_unappend (a b : List Char) (ha : a ≠ [])
    (hb : b = [] ∨ ∃ b', b = '{' :: b')
    (h : isMarkerAt (a ++ b) = true) : isMarkerAt a = true := by
  cases a with
  | nil => exact absurd rfl ha
  | cons c a' =>
    rw [List.cons_append] at h
    unfold isMarkerAt at h ⊢
    rcases Bool.and_eq_true_iff.mp h with ⟨h1, h2⟩
    rw [Bool.and_eq_true_iff]
    exact ⟨h1, afterBraceMarker_unappend a' b hb h2⟩

/-- A marker match contains the literal `descriptor:` as a substring. -/
theorem isSubstr_of_afterBraceMarker (t : List Char) (h : afterBraceMarker t = true) :
    isSubstr (lc "descriptor:") t = true := by
  induction t with
  | nil => exact absurd h (by simp [afterBraceMarker])
  | cons c t' ih =>
    unfold afterBraceMarker at h
    unfold isSubstr
    by_cases hw : isWsRe c = true
    · rw [if_pos hw] at h
      rw [ih h, Bool.or_true]
    · rw [if_neg hw] at h
      rw [h, Bool.true_or]

/-- A marker match contains the literal `descriptor:` as a substring. -/
theorem isSubstr_of_isMarkerAt (a : List Char) (h : isMarkerAt a = true) :
    isSubstr (lc "descriptor:") a = true := by
  cases a with
  | nil => exact absurd h (by simp [isMarkerAt])
  | cons c a' =>
    unfold isMarkerAt at h
    rcases Bool.and_eq_true_iff.mp h with ⟨_, h2⟩
    unfold isSubstr
    rw [isSubstr_of_afterBraceMarker a' h2, Bool.or_true]

/-- A substring of the left part is a substring of the concatenation. -/
theorem isSubstr_append_left (pat a b : List Char) (h : isSubstr pat a = true) :
    isSubstr pat (a ++ b) = true := by
  induction a with
  | nil =>
    unfold isSubstr at h
    rw [List.isEmpty_iff] at h
    subst h
    rw [List.nil_append]
    cases b with
    | nil => rfl
    | cons c b' =>
      unfold isSubstr
      rw [show List.isPrefixOf [] (c :: b') = true from rfl, Bool.true_or]
  | cons c a' ih =>
    rw [List.cons_append]
    unfold isSubstr at h ⊢
    rcases Bool.or_eq_true_iff.mp h with h1 | h2
    · have hpre : pat.isPrefixOf (c :: (a' ++ b)) = true := by
        rw [List.isPrefixOf_iff_prefix] at h1 ⊢
        have hstep : (c :: a') <+: (c :: a') ++ b := List.prefix_append _ _
        rw [List.cons_append] at hstep
        exact h1.trans hstep
      rw [hpre, Bool.true_or]
    · rw [ih h2, Bool.or_true]

/-- Text without the substring `descriptor:` has no marker match at any of
its suffixes. -/
theorem noMarkerAll_of_no_descriptor (s : List Char)
    (h : isSubstr (lc "descriptor:") s = false) : noMarkerAll s = true := by
  induction s with
  | nil => rfl
  | cons c s' ih =>
    unfold isSubstr at h
    rcases Bool.or_eq_false_iff.mp h with ⟨h1, h2⟩
    unfold noMarkerAll
    rw [Bool.and_eq_true_iff]
    refine ⟨?_, ih h2⟩
    cases hm : isMarkerAt (c :: s') with
    | false => rfl
    | true =>
      have := isSubstr_of_isMarkerAt (c :: s') hm
      unfold isSubstr at this
      rw [h1, h2] at this
      exact Bool.noConfusion this

/-- Splitting a text with no marker at any suffix yields one segment. -/
theorem splitDesc_no_marker (j : List Char) :
    ∀ acc : List Char, noMarkerAll j = true → splitDesc acc j = [acc.reverse ++ j] := by
  induction j with
  | nil =>
    intro acc _
    simp [splitDesc]
  | cons d j' ih =>
    intro acc h
    unfold noMarkerAll at h
    rcases Bool.and_eq_true_iff.mp h with ⟨h1, h2⟩
    unfold splitDesc
    rw [if_neg (by rw [Bool.not_eq_true'] at h1; rw [h1]; exact Bool.noConfusion)]
    rw [ih (d :: acc) h2]
    simp

/-- Splitting junk with no marker at any suffix followed by a marker-headed
text cuts exactly at the junction. -/
theorem splitDesc_junk_then_marker (j : List Char) :
    ∀ (acc : List Char) (c : Char) (s' : List Char),
      noMarkerAll j = true → isMarkerAt (c :: s') = true →
      splitDesc acc (j ++ c :: s') = (acc.reverse ++ j) :: splitDesc [c] s' := by
  induction j with
  | nil =>
    intro acc c s' _ hm
    rw [List.nil_append]
    have hstep : splitDesc acc (c :: s')
        = if isMarkerAt (c :: s') = true then acc.reverse :: splitDesc [c] s'
          else splitDesc (c :: acc) s' := rfl
    rw [hstep, if_pos hm]
    simp
  | cons d j' ih =>
    intro acc c s' h hm
    have h' : (!isMarkerAt (d :: j') && noMarkerAll j') = true := h
    rcases Bool.and_eq_true_iff.mp h' with ⟨h1, h2⟩
    rw [Bool.not_eq_true'] at h1
    have hm' : (c == '{' && afterBraceMarker s') = true := hm
    have hc : c = '{' := eq_of_beq (Bool.and_eq_true_iff.mp hm').1
    have hnm : isMarkerAt (d :: (j' ++ c :: s')) = false := by
      cases hq : isMarkerAt (d :: (j' ++ c :: s')) with
      | false => rfl
      | true =>
        rw [← List.cons_append] at hq
        have hx := isMarkerAt_unappend (d :: j') (c :: s') (by simp)
          (Or.inr ⟨s', by rw [hc]⟩) hq
        rw [h1] at hx
        exact Bool.noConfusion hx
    have hstep : splitDesc acc ((d :: j') ++ c :: s')
        = if isMarkerAt (d :: (j' ++ c :: s')) = true
          then acc.reverse :: splitDesc [d] (j' ++ c :: s')
          else splitDesc (d :: acc) (j' ++ c :: s') := rfl
    rw [hstep, if_neg (by rw [hnm]; exact Bool.noConfusion)]
    rw [ih (d :: acc) c s' h2 hm]
    simp

/-- The split of a clean tail followed by clean marker segments yields the
current segment then the marker segments, one each. -/
theorem splitDesc_segments (msegs : List (List Char)) :
    ∀ (cur acc : List Char),
      noMarkerAll cur = true →
      (∀ m ∈ msegs, isMarkerAt m = true ∧ noMarkerAll (m.drop 1) = true) →
      splitDesc acc (cur ++ msegs.flatten) = (acc.reverse ++ cur) :: msegs := by
  induction msegs with
  | nil =>
    intro cur acc hcur _
    rw [List.flatten_nil, List.append_nil]
    exact splitDesc_no_marker cur acc hcur
  | cons m ms ih =>
    intro cur acc hcur hall
    obtain ⟨hm, hmtail⟩ := hall m (List.mem_cons_self m ms)
    obtain ⟨c, mtail, hmeq⟩ : ∃ c mtail, m = c :: mtail := by
      cases m with
      | nil => exact absurd hm (by simp [isMarkerAt])
      | cons a b => exact ⟨a, b, rfl⟩
    subst hmeq
    rw [List.flatten_cons, List.cons_append]
    have hmjoin : isMarkerAt (c :: (mtail ++ ms.flatten)) = true := by
      have hx := isMarkerAt_append (c :: mtail) ms.flatten hm
      rw [List.cons_append] at hx
      exact hx
    rw [splitDesc_junk_then_marker cur acc c (mtail ++ ms.flatten) hcur hmjoin]
    have htail : noMarkerAll mtail = true := by simpa using hmtail
    have hsub : ∀ m2 ∈ ms, isMarkerAt m2 = true ∧ noMarkerAll (m2.drop 1) = true :=
      fun m2 hm2 => hall m2 (List.mem_cons_of_mem _ hm2)
    rw [ih mtail [c] htail hsub]
    simp

/-- A balanced scan stops exactly at the end of the balanced text, whatever
follows it. -/
theorem findSpanLen_of_balCheck (cs : List Char) :
    ∀ (d : Int) (i : Nat) (j : List Char), 0 < d → balCheck cs d = true →
      findSpanLen (cs ++ j) d i = some (i + cs.length) := by
  induction cs with
  | nil =>
    intro d i j _ hb
    exact absurd hb (by simp [balCheck])
  | cons c rest ih =>
    intro d i j hd hb
    unfold balCheck at hb
    rw [List.cons_append]
    unfold findSpanLen
    by_cases h1 : c = '{'
    · rw [if_pos h1] at hb
      rw [if_pos h1]
      have hz : ¬((d + 1 : Int) = 0) := by omega
      rw [if_neg hz] at hb
      rw [if_neg (by
        rintro ⟨hcc, _⟩
        rw [h1] at hcc
        exact absurd hcc (by decide))]
      rw [ih (d + 1) (i + 1) j (by omega) hb]
      simp only [List.length_cons]
      congr 1
      omega
    · rw [if_neg h1] at hb ⊢
      by_cases h2 : c = '}'
      · rw [if_pos h2] at hb ⊢
        by_cases hz : (d - 1 : Int) = 0
        · rw [if_pos hz] at hb
          rw [List.isEmpty_iff] at hb
          subst hb
          rw [if_pos ⟨h2, hz⟩]
          simp
        · rw [if_neg hz] at hb
          rw [if_neg (fun hand => hz hand.2)]
          rw [ih (d - 1) (i + 1) j (by omega) hb]
          simp only [List.length_cons]
          congr 1
          omega
      · rw [if_neg h2] at hb ⊢
        have hz : ¬(d = 0) := by omega
        rw [if_neg hz] at hb
        rw [if_neg (fun hand => h2 hand.1)]
        rw [ih d (i + 1) j hd hb]
        simp only [List.length_cons]
        congr 1
        omega

/-- A scan whose depth never returns to zero finds no span. -/
theorem findSpanLen_of_noCloseCheck (cs : List Char) :
    ∀ (d : Int) (i : Nat), noCloseCheck cs d = true →
      findSpanLen cs d i = none := by
  induction cs with
  | nil =>
    intro d i _
    rfl
  | cons c rest ih =>
    intro d i hb
    unfold noCloseCheck at hb
    unfold findSpanLen
    by_cases h1 : c = '{'
    · rw [if_pos h1] at hb ⊢
      by_cases hz : (d + 1 : Int) = 0
      · rw [if_pos hz] at hb
        exact Bool.noConfusion hb
      · rw [if_neg hz] at hb
        rw [if_neg (by
          rintro ⟨hcc, _⟩
          rw [h1] at hcc
          exact absurd hcc (by decide))]
        exact ih (d + 1) (i + 1) hb
    · rw [if_neg h1] at hb ⊢
      by_cases h2 : c = '}'
      · rw [if_pos h2] at hb ⊢
        by_cases hz : (d - 1 : Int) = 0
        · rw [if_pos hz] at hb
          exact Bool.noConfusion hb
        · rw [if_neg hz] at hb
          rw [if_neg (fun hand => hz hand.2)]
          exact ih (d - 1) (i + 1) hb
      · rw [if_neg h2] at hb ⊢
        by_cases hz : (d = (0 : Int))
        · rw [if_pos hz] at hb
          exact Bool.noConfusion hb
        · rw [if_neg hz] at hb
          rw [if_neg (fun hand => h2 hand.1)]
          exact ih d (i + 1) hb

/-- A never-closing text is not strictly balanced. -/
theorem not_balanced_of_neverCloses (b : List Char) (h : neverCloses b = true) :
    isStrictBalanced b = false := by
  cases b with
  | nil => rfl
  | cons c rest =>
    rcases Bool.and_eq_true_iff.mp
      (show (c == '{' && noCloseCheck rest 1) = true from h) with ⟨hc, hncl⟩
    show (c == '{' && balCheck rest 1) = false
    rw [hc, Bool.true_and]
    suffices haux : ∀ (cs : List Char) (d : Int), noCloseCheck cs d = true →
        balCheck cs d = false by
      exact haux rest 1 hncl
    intro cs
    induction cs with
    | nil =>
      intro d _
      rfl
    | cons x xs ih =>
      intro d hn
      unfold noCloseCheck at hn
      unfold balCheck
      by_cases hz : (if x = '{' then d + 1 else if x = '}' then d - 1 else d) = 0
      · rw [if_pos hz] at hn
        exact Bool.noConfusion hn
      · rw [if_neg hz] at hn ⊢
        exact ih _ hn

/-- A marker-anchored balanced block followed by anything yields exactly the
block as its candidate span. -/
theorem blockToSpan_balanced (b j : List Char) (hm : isMarkerAt b = true)
    (hb : isStrictBalanced b = true) : blockToSpan (b ++ j) = some b := by
  obtain ⟨c, btail, rfl⟩ : ∃ c btail, b = c :: btail := by
    cases b with
    | nil => exact absurd hm (by simp [isMarkerAt])
    | cons a t => exact ⟨a, t, rfl⟩
  have hc : c = '{' :=
    eq_of_beq (Bool.and_eq_true_iff.mp
      (show (c == '{' && afterBraceMarker btail) = true from hm)).1
  subst hc
  have hbal : balCheck btail 1 = true :=
    (Bool.and_eq_true_iff.mp
      (show (('{' == '{') && balCheck btail 1) = true from hb)).2
  have hsub : isSubstr (lc "descriptor:") (('{' :: btail) ++ j) = true :=
    isSubstr_append_left _ _ _ (isSubstr_of_isMarkerAt _ hm)
  unfold blockToSpan
  rw [if_pos hsub]
  have hidx : (('{' :: btail) ++ j).findIdx? (fun c => c == '{') = some 0 := by
    rw [List.cons_append, List.findIdx?_cons]
    simp
  rw [hidx]
  dsimp only
  rw [List.drop_zero]
  have hspan : findSpanLen (('{' :: btail) ++ j) 0 0 = some ('{' :: btail).length := by
    rw [List.cons_append]
    have hstep : findSpanLen ('{' :: (btail ++ j)) 0 0
        = findSpanLen (btail ++ j) 1 1 := rfl
    rw [hstep, findSpanLen_of_balCheck btail 1 1 j (by norm_num) hbal]
    simp
    omega
  rw [hspan]
  dsimp only
  rw [List.take_left]

/-- A marker-anchored text whose brace never closes before the end of its
segment yields the empty candidate span. -/
theorem blockToSpan_unbalanced (b : List Char) (hm : isMarkerAt b = true)
    (hn : neverCloses b = true) : blockToSpan b = some [] := by
  obtain ⟨c, btail, rfl⟩ : ∃ c btail, b = c :: btail := by
    cases b with
    | nil => exact absurd hm (by simp [isMarkerAt])
    | cons a t => exact ⟨a, t, rfl⟩
  have hc : c = '{' :=
    eq_of_beq (Bool.and_eq_true_iff.mp
      (show (c == '{' && afterBraceMarker btail) = true from hm)).1
  subst hc
  have hncl : noCloseCheck btail 1 = true :=
    (Bool.and_eq_true_iff.mp
      (show (('{' == '{') && noCloseCheck btail 1) = true from hn)).2
  have hsub : isSubstr (lc "descriptor:") ('{' :: btail) = true :=
    isSubstr_of_isMarkerAt _ hm
  unfold blockToSpan
  rw [if_pos hsub]
  have hidx : ('{' :: btail).findIdx? (fun c => c == '{') = some 0 := by
    rw [List.findIdx?_cons]
    simp
  rw [hidx]
  dsimp only
  rw [List.drop_zero]
  have hspan : findSpanLen ('{' :: btail) 0 0 = none := by
    have hstep : findSpanLen ('{' :: btail) 0 0 = findSpanLen btail 1 1 := rfl
    rw [hstep]
    exact findSpanLen_of_noCloseCheck btail 1 1 hncl
  rw [hspan]

/-- A filter-map over elements that all produce a value is the map of those
values. -/
theorem filterMap_congr_some {α β : Type} (l : List α) (g : α → Option β)
    (f : α → β) (h : ∀ x ∈ l, g x = some (f x)) : l.filterMap g = l.map f := by
  induction l with
  | nil => rfl
  | cons a l ih =>
    rw [List.filterMap_cons, h a (List.mem_cons_self a l)]
    rw [ih (fun x hx => h x (List.mem_cons_of_mem a hx))]
    rfl

/-- Filter-maps of pointwise-equal functions agree. -/
theorem filterMap_ext_mem {α β : Type} (l : List α) (f g : α → Option β)
    (h : ∀ x ∈ l, f x = g x) : l.filterMap f = l.filterMap g := by
  induction l with
  | nil => rfl
  | cons a l ih =>
    rw [List.filterMap_cons, List.filterMap_cons, h a (List.mem_cons_self a l),
        ih (fun x hx => h x (List.mem_cons_of_mem a hx))]

/-- C2, counterexample.  The claim says the extractor returns exactly the
spans anchored at a descriptor-bearing opening brace.  On the text
`descriptor: \x7ba: 1\x7d` there is no position where an opening brace is
followed by `descriptor:` (no marker matches at any suffix), so the claim
demands zero spans — yet the extractor returns the span `\x7ba: 1\x7d`,
whose opening brace is not descriptor-bearing, because the segment check
only asks whether `descriptor:` occurs anywhere in the segment and then
scans from the segment's first brace. -/
theorem c2_counterexample_stray_descriptor :
    extractSpans (lc "descriptor: \x7ba: 1\x7d") = [lc "\x7ba: 1\x7d"]
    ∧ noMarkerAll (lc "descriptor: \x7ba: 1\x7d") = true
    ∧ isMarkerAt (lc "\x7ba: 1\x7d") = false :=
  ⟨rfl, rfl, rfl⟩

/-- C2, amended.  The extractor splits the log at every position where an
opening brace, optional whitespace and `descriptor:` follow, and in each
segment containing the substring `descriptor:` scans from the segment's
first opening brace to the depth-matching closing brace.  Hence, for a log
made of leading text without the substring `descriptor:` followed by
marker-anchored segments — each a block anchored at a descriptor-bearing
opening brace, with no marker match at the segment's later positions —
the candidate spans are exactly: the block itself when its opening brace is
balanced within the segment (unrelated braces in the trailing text of the
segment do not move the span's end), and the empty span when no closing
brace balances it before the next marker or the end of input; the empty
span parses to no metric, and the remaining segments are still processed
(the parsed metrics are the per-span parses of exactly these spans). -/
theorem c2_amended_extractor_characterization (h : List Char)
    (pieces : List (List Char × List Char))
    (Hh : isSubstr (lc "descriptor:") h = false)
    (Hp : ∀ p ∈ pieces, isMarkerAt p.1 = true
        ∧ noMarkerAll ((p.1 ++ p.2).drop 1) = true
        ∧ (isStrictBalanced p.1 = true ∨ (p.2 = [] ∧ neverCloses p.1 = true))) :
    extractSpans (h ++ (pieces.map (fun p => p.1 ++ p.2)).flatten)
        = pieces.map (fun p => if isStrictBalanced p.1 then p.1 else [])
    ∧ extract_metrics_from_log (h ++ (pieces.map (fun p => p.1 ++ p.2)).flatten)
        = (pieces.map (fun p => if isStrictBalanced p.1 then p.1 else [])).filterMap
            parsedTruthy
    ∧ parse_metric_block [] = none := by
  have hsegs : ∀ m ∈ pieces.map (fun p => p.1 ++ p.2),
      isMarkerAt m = true ∧ noMarkerAll (m.drop 1) = true := by
    intro m hmem
    rw [List.mem_map] at hmem
    obtain ⟨p, hp, rfl⟩ := hmem
    obtain ⟨h1, h2, _⟩ := Hp p hp
    exact ⟨isMarkerAt_append p.1 p.2 h1, h2⟩
  have hsplit : splitDesc [] (h ++ (pieces.map (fun p => p.1 ++ p.2)).flatten)
      = h :: pieces.map (fun p => p.1 ++ p.2) := by
    have hx := splitDesc_segments (pieces.map (fun p => p.1 ++ p.2)) h []
      (noMarkerAll_of_no_descriptor h Hh) hsegs
    simpa using hx
  have hskip : blockToSpan h = none := by
    unfold blockToSpan
    rw [if_neg (by rw [Hh]; exact Bool.noConfusion)]
  have hper : ∀ p ∈ pieces, blockToSpan (p.1 ++ p.2)
      = some (if isStrictBalanced p.1 then p.1 else []) := by
    intro p hp
    obtain ⟨h1, _, h3⟩ := Hp p hp
    rcases h3 with hbal | ⟨hje, hncl⟩
    · rw [if_pos hbal]
      exact blockToSpan_balanced p.1 p.2 h1 hbal
    · rw [hje, List.append_nil,
        if_neg (by rw [not_balanced_of_neverCloses p.1 hncl]; exact Bool.noConfusion)]
      exact blockToSpan_unbalanced p.1 h1 hncl
  have hspans : extractSpans (h ++ (pieces.map (fun p => p.1 ++ p.2)).flatten)
      = pieces.map (fun p => if isStrictBalanced p.1 then p.1 else []) := by
    unfold extractSpans
    rw [hsplit, List.filterMap_cons, hskip, List.filterMap_map]
    exact filterMap_congr_some pieces _ _ hper
  refine ⟨hspans, ?_, rfl⟩
  unfold extract_metrics_from_log
  rw [hsplit, List.filterMap_cons, hskip]
  rw [List.filterMap_map]
  have hpoint : ∀ p ∈ pieces,
      ((fun b => (blockToSpan b).bind parsedTruthy) ∘ fun p => p.1 ++ p.2) p
        = ((fun s => parsedTruthy s) ∘ fun p => if isStrictBalanced p.1 then p.1 else []) p := by
    intro p hp
    show (blockToSpan (p.1 ++ p.2)).bind parsedTruthy
        = parsedTruthy (if isStrictBalanced p.1 then p.1 else [])
    rw [hper p hp]
    rfl
  rw [filterMap_ext_mem pieces _ _ hpoint, ← List.filterMap_map]
  rfl

/-- Witness for the amended C2: leading junk, one balanced marker-anchored
block whose trailing junk holds a stray closing brace, and a final marker
whose brace never closes. -/
theorem c2_amended_extractor_characterization_witness :
    isSubstr (lc "descriptor:") (lc "log start\n") = false
    ∧ (∀ p ∈ [(lc "\x7b descriptor: \x7ba: 1\x7d \x7d", lc "\njunk \x7d here\n"),
              (lc "\x7bdescriptor: open", ([] : List Char))],
        isMarkerAt p.1 = true
        ∧ noMarkerAll ((p.1 ++ p.2).drop 1) = true
        ∧ (isStrictBalanced p.1 = true ∨ (p.2 = [] ∧ neverCloses p.1 = true)))
    ∧ extractSpans (lc "log start\n"
        ++ ([(lc "\x7b descriptor: \x7ba: 1\x7d \x7d", lc "\njunk \x7d here\n"),
             (lc "\x7bdescriptor: open", ([] : List Char))].map
              (fun p => p.1 ++ p.2)).flatten)
      = [(lc "\x7b descriptor: \x7ba: 1\x7d \x7d", lc "\njunk \x7d here\n"),
         (lc "\x7bdescriptor: open", ([] : List Char))].map
          (fun p => if isStrictBalanced p.1 then p.1 else []) :=
  ⟨rfl, by decide,
   (c2_amended_extractor_characterization (lc "log start\n")
      [(lc "\x7b descriptor: \x7ba: 1\x7d \x7d", lc "\njunk \x7d here\n"),
       (lc "\x7bdescriptor: open", ([] : List Char))] rfl (by decide)).1⟩
